import Mathlib

/-!
Verification development for the TravanaSpot browser extension
(review collection, extraction, chunking, merging and analysis logic).

Strings from the JavaScript source are modelled as `List Char`; JavaScript
`undefined`/missing string fields are modelled as the empty list where the
source only ever tests truthiness or equality on them, and as `Option`
where presence matters.  External collaborators (the live document and the
on-device AI sessions) are modelled as oracle parameters.
-/

set_option maxRecDepth 8000

namespace Travana

/-- JavaScript `String.prototype.includes(pat)` scanning from each position
of the receiver, modelled on `List Char`. -/
def includesFrom (pat : List Char) : List Char → Bool
  | [] => decide (pat = [])
  | c :: t => pat.isPrefixOf (c :: t) || includesFrom pat t

/-- `s.includes(pat)` for the source strings. -/
def includesStr (s pat : List Char) : Bool :=
  includesFrom pat s

/-- Whitespace class used by JavaScript `trim` and regex `\s` (ASCII part,
which is all the source strings use). -/
def isWsCh (c : Char) : Bool :=
  c = ' ' || c = '\t' || c = '\n' || c = '\r' || c = '\x0b' || c = '\x0c'

/-- JavaScript `String.prototype.trim()`. -/
def trimStr (s : List Char) : List Char :=
  ((s.dropWhile isWsCh).reverse.dropWhile isWsCh).reverse

/-- JavaScript `String.prototype.toLowerCase()` on the ASCII strings used by
the analysis code. -/
def toLowerStr (s : List Char) : List Char :=
  s.map Char.toLower

/-- `estimateTokens` (browser-ai-integration.js): `Math.ceil(text.length / 4)`. -/
def estimateTokens (t : List Char) : Nat :=
  (t.length + 3) / 4

/-- The chunk separator `"\n---\n"` (5 characters). -/
def chunkSep : List Char := "\n---\n".data

/-- `Array.prototype.join` with the 5-character separator on a chunk of review texts. -/
def joinChunk : List (List Char) → List Char
  | [] => []
  | [r] => r
  | r :: s :: rest => r ++ chunkSep ++ joinChunk (s :: rest)

/-- The running size bookkeeping of `createOptimizedChunks`: each review
contributes its length plus the 5 separator characters. -/
def chunkSize (c : List (List Char)) : Nat :=
  c.foldl (fun s r => s + r.length + 5) 0

/-- Accumulator of `createOptimizedChunks`: closed chunks, the chunk being
filled, and its tracked character size. -/
structure ChunkAcc where
  chunks : List (List (List Char))
  currentChunk : List (List Char)
  currentChunkSize : Nat
  deriving Repr, DecidableEq

/-- One iteration of the `for` loop of `createOptimizedChunks`
(browser-ai-integration.js, lines 919-960): if adding the review would
exceed `MAX_CHARS_PER_CHUNK = 3000` and the current chunk is non-empty,
close the chunk, seeding the next one with the last `chunkOverlap` reviews;
then push the review. -/
def chunkStep (chunkOverlap : Nat) (acc : ChunkAcc) (review : List Char) : ChunkAcc :=
  let acc :=
    if 3000 < acc.currentChunkSize + review.length + 5 ∧ acc.currentChunk ≠ [] then
      if 0 < chunkOverlap ∧ chunkOverlap < acc.currentChunk.length then
        let overlapReviews := acc.currentChunk.drop (acc.currentChunk.length - chunkOverlap)
        let overlapSize := chunkSize overlapReviews
        ⟨acc.chunks ++ [acc.currentChunk], overlapReviews, overlapSize⟩
      else
        ⟨acc.chunks ++ [acc.currentChunk], [], 0⟩
    else acc
  ⟨acc.chunks, acc.currentChunk ++ [review], acc.currentChunkSize + review.length + 5⟩

/-- `createOptimizedChunks(reviews, chunkOverlap)` of
browser-ai-integration.js: greedy accumulation under the
`750 token * 4 chars` ceiling, with overlap carry, final partial chunk
appended. -/
def createOptimizedChunks (reviews : List (List Char)) (chunkOverlap : Nat) :
    List (List (List Char)) :=
  let acc := reviews.foldl (chunkStep chunkOverlap) ⟨[], [], 0⟩
  acc.chunks ++ (if acc.currentChunk ≠ [] then [acc.currentChunk] else [])

theorem foldl_size_add (l : List (List Char)) :
    ∀ a : Nat, l.foldl (fun s r => s + r.length + 5) a = a + chunkSize l := by
  induction l with
  | nil => intro a; simp [chunkSize]
  | cons x t ih =>
    intro a
    have h1 : (x :: t).foldl (fun s r => s + r.length + 5) a =
        t.foldl (fun s r => s + r.length + 5) (a + x.length + 5) := rfl
    have h2 : chunkSize (x :: t) =
        t.foldl (fun s r => s + r.length + 5) (0 + x.length + 5) := rfl
    rw [h1, ih, h2, ih]
    omega

theorem chunkSize_cons (r : List Char) (t : List (List Char)) :
    chunkSize (r :: t) = r.length + 5 + chunkSize t := by
  have h : chunkSize (r :: t) = t.foldl (fun s r => s + r.length + 5) (0 + r.length + 5) := rfl
  rw [h, foldl_size_add]
  omega

theorem chunkSize_append_one (l : List (List Char)) (r : List Char) :
    chunkSize (l ++ [r]) = chunkSize l + r.length + 5 := by
  have h : chunkSize (l ++ [r]) =
      [r].foldl (fun s r => s + r.length + 5) (l.foldl (fun s r => s + r.length + 5) 0) := by
    simp [chunkSize]
  rw [h]
  simp only [List.foldl_cons, List.foldl_nil]
  rfl

theorem joinChunk_length (c : List (List Char)) (hc : c ≠ []) :
    (joinChunk c).length + 5 = chunkSize c := by
  induction c with
  | nil => simp at hc
  | cons r t ih =>
    cases t with
    | nil => simp [joinChunk, chunkSize_cons, chunkSize]
    | cons s rest =>
      have h5 : chunkSep.length = 5 := by decide
      simp only [joinChunk, List.length_append, h5, chunkSize_cons]
      have := ih (by simp)
      rw [chunkSize_cons] at this
      omega

/-- The ceiling property a closed chunk can be given: within the 750-token
ceiling, or a 2-element overlap-seeded chunk within twice the ceiling. -/
def chunkOK (c : List (List Char)) : Prop :=
  estimateTokens (joinChunk c) ≤ 750 ∨ (c.length = 2 ∧ estimateTokens (joinChunk c) ≤ 1502)

/-- Invariant maintained by the chunking fold (with `chunkOverlap = 1`). -/
def ChunkInv (acc : ChunkAcc) : Prop :=
  (∀ c ∈ acc.chunks, chunkOK c) ∧
  acc.currentChunkSize = chunkSize acc.currentChunk ∧
  (∀ r ∈ acc.currentChunk, r.length ≤ 3000) ∧
  (acc.currentChunkSize ≤ 3005 ∨ (acc.currentChunk.length = 2 ∧ acc.currentChunkSize ≤ 6010))

theorem chunkOK_of_pending (c : List (List Char)) (hne : c ≠ [])
    (h : chunkSize c ≤ 3005 ∨ (c.length = 2 ∧ chunkSize c ≤ 6010)) : chunkOK c := by
  have hlen := joinChunk_length c hne
  rcases h with h | ⟨h2, h⟩
  · left
    simp only [estimateTokens]
    omega
  · right
    refine ⟨h2, ?_⟩
    simp only [estimateTokens]
    omega

theorem chunkStep_not_flush (k : Nat) (acc : ChunkAcc) (r : List Char)
    (h : ¬(3000 < acc.currentChunkSize + r.length + 5 ∧ acc.currentChunk ≠ [])) :
    chunkStep k acc r =
      ⟨acc.chunks, acc.currentChunk ++ [r], acc.currentChunkSize + r.length + 5⟩ := by
  simp only [chunkStep]
  rw [if_neg h]

theorem chunkStep_flush_overlap (k : Nat) (acc : ChunkAcc) (r : List Char)
    (h1 : 3000 < acc.currentChunkSize + r.length + 5 ∧ acc.currentChunk ≠ [])
    (h2 : 0 < k ∧ k < acc.currentChunk.length) :
    chunkStep k acc r =
      ⟨acc.chunks ++ [acc.currentChunk],
       acc.currentChunk.drop (acc.currentChunk.length - k) ++ [r],
       chunkSize (acc.currentChunk.drop (acc.currentChunk.length - k)) + r.length + 5⟩ := by
  simp only [chunkStep]
  rw [if_pos h1, if_pos h2]

theorem chunkStep_flush_no_overlap (k : Nat) (acc : ChunkAcc) (r : List Char)
    (h1 : 3000 < acc.currentChunkSize + r.length + 5 ∧ acc.currentChunk ≠ [])
    (h2 : ¬(0 < k ∧ k < acc.currentChunk.length)) :
    chunkStep k acc r =
      ⟨acc.chunks ++ [acc.currentChunk], [] ++ [r], 0 + r.length + 5⟩ := by
  simp only [chunkStep]
  rw [if_pos h1, if_neg h2]

theorem chunkStep_inv (acc : ChunkAcc) (review : List Char)
    (hrev : review.length ≤ 3000) (hinv : ChunkInv acc) :
    ChunkInv (chunkStep 1 acc review) := by
  obtain ⟨hchunks, hsize, hmem, hpend⟩ := hinv
  by_cases hflush : 3000 < acc.currentChunkSize + review.length + 5 ∧ acc.currentChunk ≠ []
  · have hOKold : chunkOK acc.currentChunk := by
      apply chunkOK_of_pending _ hflush.2
      rw [← hsize]; exact hpend
    by_cases hov : 0 < (1 : Nat) ∧ 1 < acc.currentChunk.length
    · rw [chunkStep_flush_overlap 1 acc review hflush hov]
      dsimp only [ChunkInv]
      have hlen1 : (acc.currentChunk.drop (acc.currentChunk.length - 1)).length = 1 := by
        rw [List.length_drop]; omega
      obtain ⟨x, hx⟩ := List.length_eq_one.mp hlen1
      have hxmem : x ∈ acc.currentChunk := by
        have : x ∈ acc.currentChunk.drop (acc.currentChunk.length - 1) := by
          rw [hx]; exact List.mem_singleton_self x
        exact List.drop_subset _ _ this
      have hxlen : x.length ≤ 3000 := hmem x hxmem
      refine ⟨?_, ?_, ?_, ?_⟩
      · intro c hc
        simp only [List.mem_append, List.mem_singleton] at hc
        rcases hc with hc | hc
        · exact hchunks c hc
        · rw [hc]; exact hOKold
      · simp only [hx]
        rw [chunkSize_append_one]
      · intro r hr
        simp only [hx, List.cons_append, List.nil_append, List.mem_cons,
          List.mem_singleton, List.not_mem_nil, or_false] at hr
        rcases hr with hr | hr
        · rw [hr]; exact hxlen
        · rw [hr]; exact hrev
      · right
        constructor
        · simp [hx]
        · rw [hx, chunkSize_cons]
          simp only [chunkSize, List.foldl_nil]
          omega
    · rw [chunkStep_flush_no_overlap 1 acc review hflush hov]
      dsimp only [ChunkInv]
      refine ⟨?_, ?_, ?_, ?_⟩
      · intro c hc
        simp only [List.mem_append, List.mem_singleton] at hc
        rcases hc with hc | hc
        · exact hchunks c hc
        · rw [hc]; exact hOKold
      · simp only [List.nil_append]
        rw [chunkSize_cons]
        simp only [chunkSize, List.foldl_nil]
        omega
      · intro r hr
        rw [List.mem_singleton.mp hr]
        exact hrev
      · left
        omega
  · rw [chunkStep_not_flush 1 acc review hflush]
    dsimp only [ChunkInv]
    refine ⟨hchunks, ?_, ?_, ?_⟩
    · rw [chunkSize_append_one, hsize]
    · intro r hr
      rcases List.mem_append.mp hr with hr | hr
      · exact hmem r hr
      · rw [List.mem_singleton.mp hr]; exact hrev
    · rw [not_and_or] at hflush
      rcases hflush with hflush | hflush
      · left; omega
      · simp only [ne_eq, Decidable.not_not] at hflush
        left
        have hz : acc.currentChunkSize = 0 := by
          rw [hsize, hflush]; rfl
        omega

theorem chunkFold_inv (l : List (List Char)) :
    ∀ acc : ChunkAcc, ChunkInv acc → (∀ r ∈ l, r.length ≤ 3000) →
      ChunkInv (l.foldl (chunkStep 1) acc) := by
  induction l with
  | nil => intro acc h _; exact h
  | cons x t ih =>
    intro acc h hlen
    simp only [List.foldl_cons]
    exact ih _ (chunkStep_inv acc x (hlen x (List.mem_cons_self x t)) h)
      (fun r hr => hlen r (List.mem_cons_of_mem x hr))

/-- **C3 (amended).** Given input texts that each individually fit under the
750-token ceiling (≤ 3000 characters), every chunk produced by
`createOptimizedChunks` with the default overlap of 1 has estimated token
count (separators included) at most the ceiling — except that a chunk seeded
with an overlap item carried from the previous chunk may exceed it; such a
chunk consists of exactly the carried item plus one newly consumed item (2
items) and its estimated token count is at most 1502 (twice the ceiling,
separators included). -/
theorem createOptimizedChunks_ceiling (reviews : List (List Char))
    (h : ∀ r ∈ reviews, r.length ≤ 3000) :
    ∀ c ∈ createOptimizedChunks reviews 1,
      estimateTokens (joinChunk c) ≤ 750 ∨
        (c.length = 2 ∧ estimateTokens (joinChunk c) ≤ 1502) := by
  intro c hc
  have hinv0 : ChunkInv ⟨[], [], 0⟩ :=
    ⟨by intro c hc; simp at hc, rfl, by intro r hr; simp at hr, Or.inl (by decide)⟩
  have hinv := chunkFold_inv reviews ⟨[], [], 0⟩ hinv0 h
  unfold createOptimizedChunks at hc
  set acc := reviews.foldl (chunkStep 1) ⟨[], [], 0⟩ with hacc
  obtain ⟨hchunks, hsize, hmem, hpend⟩ := hinv
  rcases List.mem_append.mp hc with hc | hc
  · exact hchunks c hc
  · by_cases hne : acc.currentChunk ≠ []
    · rw [if_pos hne] at hc
      rw [List.mem_singleton.mp hc]
      apply chunkOK_of_pending _ hne
      rw [← hsize]; exact hpend
    · rw [if_neg hne] at hc
      exact absurd hc (List.not_mem_nil c)

/-- Witness input for the amended chunk-ceiling theorem. -/
def chunkWitnessInput : List (List Char) :=
  [List.replicate 40 'a', List.replicate 50 'b']

theorem createOptimizedChunks_ceiling_witness :
    estimateTokens (joinChunk chunkWitnessInput) ≤ 750 ∨
      (chunkWitnessInput.length = 2 ∧ estimateTokens (joinChunk chunkWitnessInput) ≤ 1502) :=
  createOptimizedChunks_ceiling chunkWitnessInput (by decide) chunkWitnessInput (by decide)

/-- Concrete input refuting C3 as stated: three texts, each individually
under the 750-token ceiling. -/
def chunkCexInput : List (List Char) :=
  [List.replicate 100 'a', List.replicate 2000 'b', List.replicate 996 'c']

theorem chunkCex_eval :
    createOptimizedChunks chunkCexInput 1 =
      [[List.replicate 100 'a', List.replicate 2000 'b'],
       [List.replicate 2000 'b', List.replicate 996 'c']] := by
  simp [createOptimizedChunks, chunkCexInput, chunkStep, chunkSize, List.length_replicate]

/-- **C3 (counterexample).** Every item of `chunkCexInput` individually fits
under the 750-token ceiling, yet `createOptimizedChunks` produces a chunk
(seeded with an overlap item) whose estimated token count, separators
included, is 751 > 750, and it is not a singleton batch. -/
theorem createOptimizedChunks_ceiling_cex :
    (chunkCexInput.all fun r => decide (estimateTokens r ≤ 750)) = true ∧
      ((createOptimizedChunks chunkCexInput 1).any fun c =>
        decide (750 < estimateTokens (joinChunk c)) && decide (c.length ≠ 1)) = true := by
  have h5 : chunkSep.length = 5 := by decide
  constructor
  · simp only [chunkCexInput, List.all_cons, List.all_nil, estimateTokens,
      List.length_replicate]
    decide
  · rw [chunkCex_eval]
    simp only [List.any_cons, List.any_nil, joinChunk, estimateTokens, List.length_append,
      List.length_replicate, h5, List.length_cons, List.length_nil]
    decide

/-! ## Merger (`mergeKeywordAnalysis`, browser-ai-integration.js lines 333-388) -/

/-- One keyword-analysis entry as produced by a chunk extraction (missing
numeric fields are `|| 0` in the source, missing snippet arrays are skipped,
so zero / empty model them exactly). -/
structure KeywordItem where
  keyword : List Char
  positive : Nat
  negative : Nat
  total_mentions : Nat
  positive_snippets : List (List Char)
  negative_snippets : List (List Char)
  deriving Repr, DecidableEq

/-- The fixed enumeration of the nine required aspects. -/
def requiredAspects : List (List Char) :=
  ["Cleanliness".data, "Location".data, "HostCommunication".data, "ValueForMoney".data,
   "AccuracyOfListing".data, "CheckInProcess".data, "NoiseLevels".data, "Comfort".data,
   "Amenities".data]

/-- The zero baseline each required aspect is initialized to. -/
def baselineItem (aspect : List Char) : KeywordItem :=
  ⟨aspect, 0, 0, 0, [], []⟩

/-- The `merged` object: the nine required aspects are present (initialized
to the baseline), every other keyword is absent. -/
def initMerged : List Char → Option KeywordItem := fun k =>
  if k ∈ requiredAspects then some (baselineItem k) else none

/-- Folding one chunk item into `merged`: `if (merged[item.keyword])` — an
item whose keyword is not a required aspect is skipped; otherwise counts are
summed and snippets concatenated. -/
def addItem (m : List Char → Option KeywordItem) (it : KeywordItem) :
    List Char → Option KeywordItem :=
  match m it.keyword with
  | none => m
  | some t => fun k =>
      if k = it.keyword then
        some { t with
          positive := t.positive + it.positive
          negative := t.negative + it.negative
          total_mentions := t.total_mentions + it.total_mentions
          positive_snippets := t.positive_snippets ++ it.positive_snippets
          negative_snippets := t.negative_snippets ++ it.negative_snippets }
      else m k

/-- Folding the keyword array of every chunk into `merged`. -/
def mergeChunks (input : List (List KeywordItem)) : List Char → Option KeywordItem :=
  input.foldl (fun m chunk => chunk.foldl addItem m) initMerged

/-- `mergeKeywordAnalysis(chunkKeywordArrays)`: fold all chunks, then emit
the nine required aspects in order, snippet lists capped at 10. -/
def mergeKeywordAnalysis (input : List (List KeywordItem)) : List KeywordItem :=
  requiredAspects.map fun aspect =>
    let d := (mergeChunks input aspect).getD (baselineItem aspect)
    { d with
      positive_snippets := d.positive_snippets.take 10
      negative_snippets := d.negative_snippets.take 10 }

/-- Keyword-labelling invariant of the `merged` map. -/
def KwInv (m : List Char → Option KeywordItem) : Prop :=
  ∀ k t, m k = some t → t.keyword = k

theorem kwInv_init : KwInv initMerged := by
  intro k t h
  unfold initMerged at h
  by_cases hk : k ∈ requiredAspects
  · rw [if_pos hk] at h
    cases h
    rfl
  · rw [if_neg hk] at h
    cases h

theorem kwInv_addItem (m : List Char → Option KeywordItem) (it : KeywordItem)
    (h : KwInv m) : KwInv (addItem m it) := by
  intro k t ht
  unfold addItem at ht
  cases hm : m it.keyword with
  | none => rw [hm] at ht; exact h k t ht
  | some u =>
    rw [hm] at ht
    dsimp only at ht
    by_cases hk : k = it.keyword
    · rw [if_pos hk] at ht
      cases ht
      rw [hk]
      exact h it.keyword u hm
    · rw [if_neg hk] at ht
      exact h k t ht

theorem kwInv_chunk (c : List KeywordItem) :
    ∀ m, KwInv m → KwInv (c.foldl addItem m) := by
  induction c with
  | nil => intro m h; exact h
  | cons it t ih =>
    intro m h
    exact ih _ (kwInv_addItem m it h)

theorem kwInv_fold (input : List (List KeywordItem)) :
    ∀ m, KwInv m → KwInv (input.foldl (fun m chunk => chunk.foldl addItem m) m) := by
  induction input with
  | nil => intro m h; exact h
  | cons c t ih =>
    intro m h
    simp only [List.foldl_cons]
    exact ih _ (kwInv_chunk c m h)

theorem kwInv_mergeChunks (input : List (List KeywordItem)) : KwInv (mergeChunks input) :=
  kwInv_fold input initMerged kwInv_init

theorem addItem_skip (m : List Char → Option KeywordItem) (it : KeywordItem) (a : List Char)
    (hne : it.keyword ≠ a) : addItem m it a = m a := by
  unfold addItem
  cases hm : m it.keyword with
  | none => rfl
  | some u =>
    dsimp only
    rw [if_neg fun h => hne h.symm]

theorem chunkFold_skip (c : List KeywordItem) (a : List Char)
    (hne : ∀ it ∈ c, it.keyword ≠ a) :
    ∀ m : List Char → Option KeywordItem, (c.foldl addItem m) a = m a := by
  induction c with
  | nil => intro m; rfl
  | cons it t ih =>
    intro m
    simp only [List.foldl_cons]
    rw [ih fun x hx => hne x (List.mem_cons_of_mem it hx)]
    exact addItem_skip m it a (hne it (List.mem_cons_self it t))

theorem foldl_chunks_skip (t : List (List KeywordItem)) (a : List Char)
    (hne : ∀ c ∈ t, ∀ it ∈ c, it.keyword ≠ a) :
    ∀ m : List Char → Option KeywordItem,
      (t.foldl (fun m chunk => chunk.foldl addItem m) m) a = m a := by
  induction t with
  | nil => intro m; rfl
  | cons c u ih =>
    intro m
    simp only [List.foldl_cons]
    rw [ih fun d hd => hne d (List.mem_cons_of_mem c hd)]
    exact chunkFold_skip c a (hne c (List.mem_cons_self c u)) m

theorem mergeChunks_skip (input : List (List KeywordItem)) (a : List Char)
    (hne : ∀ c ∈ input, ∀ it ∈ c, it.keyword ≠ a) :
    mergeChunks input a = initMerged a :=
  foldl_chunks_skip input a hne initMerged

/-- **C4.** For every list of per-chunk keyword-analysis arrays (including
the empty list, arrays that omit aspects, and arrays with extra keywords
outside the enumeration), the output of `mergeKeywordAnalysis` carries
exactly the nine enumerated aspect keys in order — never more, never fewer —
and an aspect mentioned by no chunk appears with its zero baseline
(0/0/0 counts, empty snippet lists). -/
theorem mergeKeywordAnalysis_aspects (input : List (List KeywordItem)) :
    (mergeKeywordAnalysis input).map KeywordItem.keyword = requiredAspects ∧
      ∀ a ∈ requiredAspects, (∀ c ∈ input, ∀ it ∈ c, it.keyword ≠ a) →
        baselineItem a ∈ mergeKeywordAnalysis input := by
  constructor
  · unfold mergeKeywordAnalysis
    rw [List.map_map]
    have h : ∀ a ∈ requiredAspects,
        (KeywordItem.keyword ∘ fun aspect =>
          let d := (mergeChunks input aspect).getD (baselineItem aspect)
          { d with
            positive_snippets := d.positive_snippets.take 10
            negative_snippets := d.negative_snippets.take 10 }) a = id a := by
      intro a _
      simp only [Function.comp_apply, id_eq]
      cases hm : mergeChunks input a with
      | none => rfl
      | some t =>
        simp only [Option.getD_some]
        exact kwInv_mergeChunks input a t hm
    rw [List.map_congr_left h, List.map_id]
  · intro a ha hne
    unfold mergeKeywordAnalysis
    apply List.mem_map.mpr
    refine ⟨a, ha, ?_⟩
    rw [mergeChunks_skip input a hne]
    unfold initMerged
    rw [if_pos ha]
    rfl

/-- Concrete input for the C4 witness: one chunk mentioning Location, one
chunk mentioning an extra keyword outside the enumeration. -/
def mergeWitnessInput : List (List KeywordItem) :=
  [[⟨"Location".data, 2, 1, 3, ["nice area".data], []⟩],
   [⟨"WiFi".data, 1, 0, 1, [], []⟩]]

theorem mergeKeywordAnalysis_aspects_witness :
    (mergeKeywordAnalysis mergeWitnessInput).map KeywordItem.keyword = requiredAspects ∧
      baselineItem "Cleanliness".data ∈ mergeKeywordAnalysis mergeWitnessInput :=
  ⟨(mergeKeywordAnalysis_aspects mergeWitnessInput).1,
   (mergeKeywordAnalysis_aspects mergeWitnessInput).2 "Cleanliness".data (by decide) (by decide)⟩

/-- The total contribution one chunk makes to the count `f` of aspect `a`. -/
def chunkCount (f : KeywordItem → Nat) (a : List Char) (c : List KeywordItem) : Nat :=
  (c.map fun it => if it.keyword = a then f it else 0).sum

theorem chunkCount_cons (f : KeywordItem → Nat) (a : List Char) (it : KeywordItem)
    (u : List KeywordItem) :
    chunkCount f a (it :: u) = (if it.keyword = a then f it else 0) + chunkCount f a u := by
  simp [chunkCount]

theorem addItem_counts (m : List Char → Option KeywordItem) (it : KeywordItem) (a : List Char)
    (t : KeywordItem) (hm : m a = some t) :
    ∃ t', addItem m it a = some t' ∧
      t'.positive = t.positive + (if it.keyword = a then it.positive else 0) ∧
      t'.negative = t.negative + (if it.keyword = a then it.negative else 0) ∧
      t'.total_mentions = t.total_mentions + (if it.keyword = a then it.total_mentions else 0) := by
  by_cases hk : it.keyword = a
  · subst hk
    refine ⟨{ t with
        positive := t.positive + it.positive
        negative := t.negative + it.negative
        total_mentions := t.total_mentions + it.total_mentions
        positive_snippets := t.positive_snippets ++ it.positive_snippets
        negative_snippets := t.negative_snippets ++ it.negative_snippets },
      ?_, by simp, by simp, by simp⟩
    unfold addItem
    rw [hm]
    dsimp only
    rw [if_pos rfl]
  · rw [addItem_skip m it a hk, hm]
    exact ⟨t, rfl, by rw [if_neg hk]; omega, by rw [if_neg hk]; omega, by rw [if_neg hk]; omega⟩

theorem chunkFold_counts (c : List KeywordItem) (a : List Char) :
    ∀ (m : List Char → Option KeywordItem) (t : KeywordItem), m a = some t →
      ∃ t', (c.foldl addItem m) a = some t' ∧
        t'.positive = t.positive + chunkCount KeywordItem.positive a c ∧
        t'.negative = t.negative + chunkCount KeywordItem.negative a c ∧
        t'.total_mentions = t.total_mentions + chunkCount KeywordItem.total_mentions a c := by
  induction c with
  | nil =>
    intro m t hm
    exact ⟨t, hm, by simp [chunkCount], by simp [chunkCount], by simp [chunkCount]⟩
  | cons it u ih =>
    intro m t hm
    obtain ⟨t1, h1, hp1, hn1, ht1⟩ := addItem_counts m it a t hm
    obtain ⟨t2, h2, hp2, hn2, ht2⟩ := ih (addItem m it) t1 h1
    refine ⟨t2, h2, ?_, ?_, ?_⟩
    · rw [hp2, hp1, chunkCount_cons]; omega
    · rw [hn2, hn1, chunkCount_cons]; omega
    · rw [ht2, ht1, chunkCount_cons]; omega

theorem mergeFold_counts (l : List (List KeywordItem)) (a : List Char) :
    ∀ (m : List Char → Option KeywordItem) (t : KeywordItem), m a = some t →
      ∃ t', (l.foldl (fun m chunk => chunk.foldl addItem m) m) a = some t' ∧
        t'.positive = t.positive + (l.map (chunkCount KeywordItem.positive a)).sum ∧
        t'.negative = t.negative + (l.map (chunkCount KeywordItem.negative a)).sum ∧
        t'.total_mentions =
          t.total_mentions + (l.map (chunkCount KeywordItem.total_mentions a)).sum := by
  induction l with
  | nil =>
    intro m t hm
    exact ⟨t, hm, by simp, by simp, by simp⟩
  | cons c u ih =>
    intro m t hm
    obtain ⟨t1, h1, hp1, hn1, ht1⟩ := chunkFold_counts c a m t hm
    obtain ⟨t2, h2, hp2, hn2, ht2⟩ := ih (c.foldl addItem m) t1 h1
    refine ⟨t2, h2, ?_, ?_, ?_⟩
    · rw [hp2, hp1]; simp only [List.map_cons, List.sum_cons]; omega
    · rw [hn2, hn1]; simp only [List.map_cons, List.sum_cons]; omega
    · rw [ht2, ht1]; simp only [List.map_cons, List.sum_cons]; omega

theorem mergeChunks_counts (input : List (List KeywordItem)) (a : List Char)
    (ha : a ∈ requiredAspects) :
    ∃ t', mergeChunks input a = some t' ∧
      t'.positive = (input.map (chunkCount KeywordItem.positive a)).sum ∧
      t'.negative = (input.map (chunkCount KeywordItem.negative a)).sum ∧
      t'.total_mentions = (input.map (chunkCount KeywordItem.total_mentions a)).sum := by
  have hinit : initMerged a = some (baselineItem a) := by
    unfold initMerged
    rw [if_pos ha]
  obtain ⟨t', h, hp, hn, ht⟩ := mergeFold_counts input a initMerged (baselineItem a) hinit
  exact ⟨t', h, by simpa [baselineItem] using hp, by simpa [baselineItem] using hn,
    by simpa [baselineItem] using ht⟩

/-- **C10.** Folding any permutation of the per-chunk keyword-analysis
arrays through `mergeKeywordAnalysis` yields identical per-aspect keyword,
positive, negative and total-mention values (only the capped snippet lists
may differ between the two orders). -/
theorem mergeKeywordAnalysis_perm (input input' : List (List KeywordItem))
    (hperm : input.Perm input') :
    (mergeKeywordAnalysis input).map
        (fun it => (it.keyword, it.positive, it.negative, it.total_mentions)) =
      (mergeKeywordAnalysis input').map
        (fun it => (it.keyword, it.positive, it.negative, it.total_mentions)) := by
  unfold mergeKeywordAnalysis
  rw [List.map_map, List.map_map]
  apply List.map_congr_left
  intro a ha
  obtain ⟨t1, h1, hp1, hn1, ht1⟩ := mergeChunks_counts input a ha
  obtain ⟨t2, h2, hp2, hn2, ht2⟩ := mergeChunks_counts input' a ha
  have hk1 : t1.keyword = a := kwInv_mergeChunks input a t1 h1
  have hk2 : t2.keyword = a := kwInv_mergeChunks input' a t2 h2
  have hsum : ∀ f : KeywordItem → Nat,
      (input.map (chunkCount f a)).sum = (input'.map (chunkCount f a)).sum :=
    fun f => (hperm.map (chunkCount f a)).sum_eq
  simp only [Function.comp_apply, h1, h2, Option.getD_some]
  rw [hk1, hk2, hp1, hp2, hn1, hn2, ht1, ht2,
    hsum KeywordItem.positive, hsum KeywordItem.negative, hsum KeywordItem.total_mentions]

/-- A permutation of `mergeWitnessInput` for the C10 witness. -/
def mergeWitnessInputPerm : List (List KeywordItem) :=
  [[⟨"WiFi".data, 1, 0, 1, [], []⟩],
   [⟨"Location".data, 2, 1, 3, ["nice area".data], []⟩]]

theorem mergeKeywordAnalysis_perm_witness :
    (mergeKeywordAnalysis mergeWitnessInput).map
        (fun it => (it.keyword, it.positive, it.negative, it.total_mentions)) =
      (mergeKeywordAnalysis mergeWitnessInputPerm).map
        (fun it => (it.keyword, it.positive, it.negative, it.total_mentions)) :=
  mergeKeywordAnalysis_perm mergeWitnessInput mergeWitnessInputPerm (by decide)

/-! ## Record extractor (`extractReviewsFromDOM`, src/unnamed/part_000 lines 657-840) -/

/-- One extracted review record.  Fields the source leaves `undefined` are
modelled as the empty string / `none` (the source only ever tests truthiness
and string equality on them). -/
structure Review where
  name : List Char := []
  location : List Char := []
  date : Option (List Char) := none
  stayDetails : List Char := []
  text : List Char := []
  comments : List Char := []
  rating : Option Nat := none
  deriving Repr, DecidableEq

def isDigitCh (c : Char) : Bool := '0' ≤ c && c ≤ '9'

def isLetterCh (c : Char) : Bool := ('A' ≤ c && c ≤ 'Z') || ('a' ≤ c && c ≤ 'z')

/-- `parseInt` on a non-empty run of decimal digits. -/
def digitsToNat (ds : List Char) : Nat :=
  ds.foldl (fun n c => 10 * n + (c.toNat - '0'.toNat)) 0

/-- Attempt of the regex `/Rating,\s*(\d+)\s*star/` anchored at the start of
`s`; returns the parsed digit group on success. -/
def matchCueAt (s : List Char) : Option Nat :=
  if "Rating,".data.isPrefixOf s then
    let rest := (s.drop 7).dropWhile isWsCh
    let digits := rest.takeWhile isDigitCh
    if digits = [] then none
    else if "star".data.isPrefixOf ((rest.dropWhile isDigitCh).dropWhile isWsCh) then
      some (digitsToNat digits)
    else none
  else none

/-- `text.match(/Rating,\s*(\d+)\s*star/)`: leftmost match wins. -/
def findCue : List Char → Option Nat
  | [] => none
  | c :: t =>
    match matchCueAt (c :: t) with
    | some n => some n
    | none => findCue t

/-- The span scan of the rating extraction: the first span whose text
matches the cue regex sets `starCount` and breaks (even when the parsed
number is 0). -/
def firstCueIn : List (List Char) → Option Nat
  | [] => none
  | s :: rest =>
    match findCue s with
    | some n => some n
    | none => firstCueIn rest

/-- The second and third rating strategies, applied to the `starCount` the
span scan produced: glyph count when it is in 1..5, then default 5 when body
text is longer than 20 characters. -/
def ratingFromCounts (g svgCount : Nat) (text : List Char) : Nat :=
  let starCount := if g = 0 ∧ 0 < svgCount ∧ svgCount ≤ 5 then svgCount else g
  if starCount = 0 ∧ text ≠ [] ∧ 20 < text.length then 5 else starCount

/-- The three-strategy rating cascade of `extractReviewsFromDOM`
(src/unnamed/part_000 lines 719-750): textual cue, then star-glyph count in
1..5, then default 5 when body text longer than 20 characters. -/
def ratingStarCount (spans : List (List Char)) (svgCount : Nat) (text : List Char) : Nat :=
  ratingFromCounts ((firstCueIn spans).getD 0) svgCount text

/-- `review.rating` is only set when the cascade produced a positive count. -/
def ratingOf (spans : List (List Char)) (svgCount : Nat) (text : List Char) : Option Nat :=
  let n := ratingStarCount spans svgCount text
  if 0 < n then some n else none

/-- Attempt of the regex `/([A-Za-z]+ \d{4})/` anchored at the start of `s`. -/
def matchMonthYearAt (s : List Char) : Option (List Char) :=
  let letters := s.takeWhile isLetterCh
  if letters = [] then none
  else
    match s.drop letters.length with
    | ' ' :: rest =>
      let digits := rest.takeWhile isDigitCh
      if 4 ≤ digits.length then some (letters ++ [' '] ++ digits.take 4) else none
    | _ => none

/-- `dateText.match(/([A-Za-z]+ \d{4})/)`: leftmost match wins. -/
def findMonthYear : List Char → Option (List Char)
  | [] => none
  | c :: t =>
    match matchMonthYearAt (c :: t) with
    | some r => some r
    | none => findMonthYear t

/-- A `[data-review-id]` element, abstracted to the contents the extraction
reads: the resolved name / location / date / text nodes (absent or empty
text content modelled as in the source truthiness tests), all span texts,
and the count of `svg[viewBox="0 0 32 32"]` star glyphs. -/
structure ReviewElement where
  nameContent : Option (List Char) := none
  locationContent : Option (List Char) := none
  dateContent : Option (List Char) := none
  textContent : Option (List Char) := none
  spans : List (List Char) := []
  starSvgCount : Nat := 0
  deriving Repr, DecidableEq

/-- A generic content block matched by the fallback selectors, abstracted to
the resolved name / date / text node contents. -/
structure FallbackElement where
  nameContent : Option (List Char) := none
  dateContent : Option (List Char) := none
  textContent : Option (List Char) := none
  deriving Repr, DecidableEq

/-- `if (node && node.textContent) field = node.textContent.trim()`:
the field stays empty unless the node exists with truthy text content. -/
def contentStr : Option (List Char) → List Char
  | some t => if t ≠ [] then trimStr t else []
  | none => []

/-- Field extraction for one primary-mode review element. -/
def buildPrimaryRecord (el : ReviewElement) : Review :=
  let name := contentStr el.nameContent
  let dateText := contentStr el.dateContent
  let text := contentStr el.textContent
  { name := name
    location := contentStr el.locationContent
    date := findMonthYear dateText
    stayDetails := dateText
    text := text
    rating := ratingOf el.spans el.starSvgCount text }

/-- Primary-mode retention (src/unnamed/part_000 lines 758-767): keep the
record when name and text are both non-empty, or on substantial text alone
(> 20 chars) with the author set to the `Anonymous` sentinel. -/
def pushPrimary (acc : List Review) (el : ReviewElement) : List Review :=
  let review := buildPrimaryRecord el
  if review.name ≠ [] ∧ review.text ≠ [] then acc ++ [review]
  else if review.text ≠ [] ∧ 20 < review.text.length then
    acc ++ [{ review with name := "Anonymous".data }]
  else acc

/-- Field extraction for one fallback-mode element. -/
def buildFallbackRecord (el : FallbackElement) : Review :=
  let dateText := contentStr el.dateContent
  { name := contentStr el.nameContent
    date := if dateText ≠ [] then some dateText else none
    text := contentStr el.textContent }

/-- Fallback-mode retention (src/unnamed/part_000 lines 826-829): keep the
record when it has a name OR text. -/
def pushFallback (acc : List Review) (el : FallbackElement) : List Review :=
  let review := buildFallbackRecord el
  if review.name ≠ [] ∨ review.text ≠ [] then acc ++ [review] else acc

/-- The document state one extraction pass sees: the `[data-review-id]`
elements, and the generic content blocks the fallback selectors would
match. -/
structure DomState where
  primaryEls : List ReviewElement
  fallbackEls : List FallbackElement
  deriving Repr, DecidableEq

/-- `extractReviewsFromDOM()`: primary mode when `[data-review-id]` elements
exist, else the generic fallback mode; both stop collecting at 100. -/
def extractReviewsFromDOM (dom : DomState) : List Review :=
  if dom.primaryEls ≠ [] then
    dom.primaryEls.foldl (fun acc el => if 100 ≤ acc.length then acc else pushPrimary acc el) []
  else
    dom.fallbackEls.foldl (fun acc el => if 100 ≤ acc.length then acc else pushFallback acc el) []

theorem ratingFromCounts_pos (g svgCount : Nat) (text : List Char) (hg : g ≠ 0) :
    ratingFromCounts g svgCount text = g := by
  unfold ratingFromCounts
  dsimp only
  have hC1 : ¬(g = 0 ∧ 0 < svgCount ∧ svgCount ≤ 5) := fun hc => hg hc.1
  rw [if_neg hC1]
  have hC2 : ¬(g = 0 ∧ text ≠ [] ∧ 20 < text.length) := fun hc => hg hc.1
  rw [if_neg hC2]

theorem ratingFromCounts_svg (svgCount : Nat) (text : List Char)
    (h1 : 1 ≤ svgCount) (h5 : svgCount ≤ 5) :
    ratingFromCounts 0 svgCount text = svgCount := by
  unfold ratingFromCounts
  dsimp only
  have hC1 : (0 : Nat) = 0 ∧ 0 < svgCount ∧ svgCount ≤ 5 := ⟨rfl, h1, h5⟩
  rw [if_pos hC1]
  have hC2 : ¬(svgCount = 0 ∧ text ≠ [] ∧ 20 < text.length) := fun hc => by omega
  rw [if_neg hC2]

theorem ratingFromCounts_default (svgCount : Nat) (text : List Char)
    (hsvg : svgCount = 0 ∨ 5 < svgCount) (ht : text ≠ []) (hl : 20 < text.length) :
    ratingFromCounts 0 svgCount text = 5 := by
  unfold ratingFromCounts
  dsimp only
  have hC1 : ¬((0 : Nat) = 0 ∧ 0 < svgCount ∧ svgCount ≤ 5) := fun hc => by omega
  rw [if_neg hC1]
  have hC2 : (0 : Nat) = 0 ∧ text ≠ [] ∧ 20 < text.length := ⟨rfl, ht, hl⟩
  rw [if_pos hC2]

theorem ratingFromCounts_zero (svgCount : Nat) (text : List Char)
    (hsvg : svgCount = 0 ∨ 5 < svgCount) (ht : text = [] ∨ text.length ≤ 20) :
    ratingFromCounts 0 svgCount text = 0 := by
  unfold ratingFromCounts
  dsimp only
  have hC1 : ¬((0 : Nat) = 0 ∧ 0 < svgCount ∧ svgCount ≤ 5) := fun hc => by omega
  rw [if_neg hC1]
  have hC2 : ¬((0 : Nat) = 0 ∧ text ≠ [] ∧ 20 < text.length) := by
    intro hc
    rcases ht with ht | ht
    · exact hc.2.1 ht
    · omega
  rw [if_neg hC2]

theorem ratingOf_eq (spans : List (List Char)) (svgCount : Nat) (text : List Char) :
    ratingOf spans svgCount text =
      if 0 < ratingStarCount spans svgCount text then
        some (ratingStarCount spans svgCount text)
      else none := rfl

/-- **C8 (amended).** The rating cascade, first matching strategy wins: a
"Rating, N stars" textual cue with parsed N ≥ 1 yields rating N; when the
cue is absent — or parses to 0, which the code treats as "no rating found"
and which also stops the span scan — a star-glyph count in 1..5 is used;
otherwise body text longer than 20 characters defaults the rating to 5;
otherwise the record carries no rating. -/
theorem rating_cascade (spans : List (List Char)) (svgCount : Nat) (text : List Char) :
    (∀ n, firstCueIn spans = some (n + 1) →
      ratingOf spans svgCount text = some (n + 1)) ∧
    ((firstCueIn spans = none ∨ firstCueIn spans = some 0) →
      1 ≤ svgCount → svgCount ≤ 5 → ratingOf spans svgCount text = some svgCount) ∧
    ((firstCueIn spans = none ∨ firstCueIn spans = some 0) →
      (svgCount = 0 ∨ 5 < svgCount) → text ≠ [] → 20 < text.length →
      ratingOf spans svgCount text = some 5) ∧
    ((firstCueIn spans = none ∨ firstCueIn spans = some 0) →
      (svgCount = 0 ∨ 5 < svgCount) → (text = [] ∨ text.length ≤ 20) →
      ratingOf spans svgCount text = none) := by
  refine ⟨?_, ?_, ?_, ?_⟩
  · intro n h
    have hS : ratingStarCount spans svgCount text = n + 1 := by
      unfold ratingStarCount
      rw [h]
      exact ratingFromCounts_pos (n + 1) svgCount text (Nat.succ_ne_zero n)
    rw [ratingOf_eq, hS, if_pos (Nat.succ_pos n)]
  · intro hcue h1 h5
    have hS : ratingStarCount spans svgCount text = svgCount := by
      unfold ratingStarCount
      rcases hcue with h | h <;> rw [h] <;>
        exact ratingFromCounts_svg svgCount text h1 h5
    rw [ratingOf_eq, hS, if_pos (by omega)]
  · intro hcue hsvg hne hlen
    have hS : ratingStarCount spans svgCount text = 5 := by
      unfold ratingStarCount
      rcases hcue with h | h <;> rw [h] <;>
        exact ratingFromCounts_default svgCount text hsvg hne hlen
    rw [ratingOf_eq, hS, if_pos (by omega)]
  · intro hcue hsvg htext
    have hS : ratingStarCount spans svgCount text = 0 := by
      unfold ratingStarCount
      rcases hcue with h | h <;> rw [h] <;>
        exact ratingFromCounts_zero svgCount text hsvg htext
    rw [ratingOf_eq, hS, if_neg (by omega)]

theorem rating_cascade_witness :
    ratingOf ["Rating, 4 stars".data] 0 [] = some 4 :=
  (rating_cascade ["Rating, 4 stars".data] 0 []).1 3 (by decide)

/-- **C8 (counterexample).** A span text "Rating, 0 stars" is a present
"Rating, N stars" cue whose parsed N is 0, yet the rating resolved for a
26-character body text is 5, not the parsed 0. -/
theorem rating_cascade_cex :
    findCue "Rating, 0 stars".data = some 0 ∧
      ratingOf ["Rating, 0 stars".data] 0 (List.replicate 26 'x') = some 5 ∧
      ratingOf ["Rating, 0 stars".data] 0 (List.replicate 26 'x') ≠ some 0 := by
  refine ⟨by decide, by decide, by decide⟩

/-- The retention property of a primary-mode record. -/
def PrimaryKept (r : Review) : Prop :=
  r.text ≠ [] ∧ (r.name ≠ [] ∨ (r.name = "Anonymous".data ∧ 20 < r.text.length))

/-- The retention property of a fallback-mode record. -/
def FallbackKept (r : Review) : Prop :=
  r.name ≠ [] ∨ r.text ≠ []

theorem fold_push_mem {α : Type} (P : Review → Prop) (push : List Review → α → List Review)
    (hpush : ∀ acc el r, r ∈ push acc el → r ∈ acc ∨ P r) :
    ∀ (els : List α) (acc : List Review), (∀ r ∈ acc, P r) →
      ∀ r ∈ els.foldl (fun acc el => if 100 ≤ acc.length then acc else push acc el) acc, P r := by
  intro els
  induction els with
  | nil => intro acc hacc r hr; exact hacc r hr
  | cons el t ih =>
    intro acc hacc r hr
    simp only [List.foldl_cons] at hr
    by_cases hlen : 100 ≤ acc.length
    · rw [if_pos hlen] at hr
      exact ih acc hacc r hr
    · rw [if_neg hlen] at hr
      refine ih (push acc el) ?_ r hr
      intro x hx
      rcases hpush acc el x hx with hx | hx
      · exact hacc x hx
      · exact hx

theorem pushPrimary_kept (acc : List Review) (el : ReviewElement) (r : Review)
    (hr : r ∈ pushPrimary acc el) : r ∈ acc ∨ PrimaryKept r := by
  unfold pushPrimary at hr
  by_cases h1 : (buildPrimaryRecord el).name ≠ [] ∧ (buildPrimaryRecord el).text ≠ []
  · rw [if_pos h1] at hr
    rcases List.mem_append.mp hr with hr | hr
    · exact Or.inl hr
    · right
      rw [List.mem_singleton.mp hr]
      exact ⟨h1.2, Or.inl h1.1⟩
  · rw [if_neg h1] at hr
    by_cases h2 : (buildPrimaryRecord el).text ≠ [] ∧ 20 < (buildPrimaryRecord el).text.length
    · rw [if_pos h2] at hr
      rcases List.mem_append.mp hr with hr | hr
      · exact Or.inl hr
      · right
        rw [List.mem_singleton.mp hr]
        exact ⟨h2.1, Or.inr ⟨rfl, h2.2⟩⟩
    · rw [if_neg h2] at hr
      exact Or.inl hr

theorem pushFallback_kept (acc : List Review) (el : FallbackElement) (r : Review)
    (hr : r ∈ pushFallback acc el) : r ∈ acc ∨ FallbackKept r := by
  unfold pushFallback at hr
  by_cases h1 : (buildFallbackRecord el).name ≠ [] ∨ (buildFallbackRecord el).text ≠ []
  · rw [if_pos h1] at hr
    rcases List.mem_append.mp hr with hr | hr
    · exact Or.inl hr
    · right
      rw [List.mem_singleton.mp hr]
      exact h1
  · rw [if_neg h1] at hr
    exact Or.inl hr

/-- **C7 (amended).** Every record of a primary-mode extraction pass has
non-empty body text, either with a non-empty author or (on substantial text
alone, longer than 20 characters) with the author set to the sentinel
`Anonymous`.  In the generic fallback mode a record is retained as soon as
it has a non-empty author OR non-empty body text, so a fallback record may
carry an author and empty body text. -/
theorem extractReviews_retention (dom : DomState) (r : Review)
    (hr : r ∈ extractReviewsFromDOM dom) :
    (dom.primaryEls ≠ [] → PrimaryKept r) ∧ (dom.primaryEls = [] → FallbackKept r) := by
  unfold extractReviewsFromDOM at hr
  constructor
  · intro hp
    rw [if_pos hp] at hr
    have := fold_push_mem PrimaryKept pushPrimary pushPrimary_kept dom.primaryEls []
      (by intro x hx; simp at hx) r hr
    exact this
  · intro hp
    rw [if_neg (by simp [hp])] at hr
    exact fold_push_mem FallbackKept pushFallback pushFallback_kept dom.fallbackEls []
      (by intro x hx; simp at hx) r hr

/-- Witness element: a primary-mode review with name, long text and a
rating cue. -/
def primaryWitnessEl : ReviewElement :=
  { nameContent := some "Bob".data
    textContent := some "The apartment was spotless and great".data
    spans := ["Rating, 4 stars".data] }

def primaryWitnessDom : DomState := ⟨[primaryWitnessEl], []⟩

theorem extractReviews_retention_witness :
    PrimaryKept (buildPrimaryRecord primaryWitnessEl) :=
  (extractReviews_retention primaryWitnessDom (buildPrimaryRecord primaryWitnessEl)
    (by decide)).1 (by decide)

/-- Document matched only by the fallback selectors: one content block with
an author and no body text. -/
def fallbackCexDom : DomState := ⟨[], [{ nameContent := some "Alice".data }]⟩

/-- **C7 (counterexample).** In fallback mode a record with author "Alice"
and empty body text is retained, contradicting "every record ... has
non-empty bodyText". -/
theorem extractReviews_retention_cex :
    extractReviewsFromDOM fallbackCexDom = [{ name := "Alice".data }] ∧
      ((extractReviewsFromDOM fallbackCexDom).any fun r => decide (r.text = [])) = true := by
  refine ⟨by decide, by decide⟩

/-! ## Fallback analysis (`fallbackReviewAnalysis`, browser-ai-integration.js lines 1812-1984) -/

/-- `Array.prototype.join(sep)`. -/
def joinWithSep (sep : List Char) : List (List Char) → List Char
  | [] => []
  | [t] => t
  | t :: u :: rest => t ++ sep ++ joinWithSep sep (u :: rest)

def natToStr (n : Nat) : List Char := (toString n).data

def positiveWords : List (List Char) :=
  ["great".data, "excellent".data, "amazing".data, "perfect".data, "love".data,
   "wonderful".data, "fantastic".data, "clean".data, "comfortable".data, "beautiful".data]

def negativeWords : List (List Char) :=
  ["bad".data, "terrible".data, "awful".data, "dirty".data, "uncomfortable".data,
   "noisy".data, "poor".data, "disappointing".data]

/-- `words.some(w => l.includes(w))`. -/
def containsAnyStr (l : List Char) (words : List (List Char)) : Bool :=
  words.any fun w => includesStr l w

/-- The nested `forEach` word counting: every (text, word) pair with the
word contained in the lowercased text counts 1. -/
def countWordHits (words : List (List Char)) (texts : List (List Char)) : Nat :=
  texts.foldl (fun acc t => acc + (words.filter fun w => includesStr (toLowerStr t) w).length) 0

structure ThemeTally where
  positive : Nat := 0
  negative : Nat := 0
  deriving Repr, DecidableEq

structure Themes where
  cleanliness : ThemeTally := {}
  location : ThemeTally := {}
  host : ThemeTally := {}
  value : ThemeTally := {}
  comfort : ThemeTally := {}
  amenities : ThemeTally := {}
  noiseLevels : ThemeTally := {}
  deriving Repr, DecidableEq

/-- The contribution of one review text to the themes tallies. -/
def themeStep (th : Themes) (text : List Char) : Themes :=
  let l := toLowerStr text
  let hasPos := containsAnyStr l positiveWords
  let hasNeg := containsAnyStr l negativeWords
  let bump : ThemeTally → ThemeTally := fun tt =>
    ⟨tt.positive + (if hasPos then 1 else 0), tt.negative + (if hasNeg then 1 else 0)⟩
  let th := if includesStr l "clean".data || includesStr l "tidy".data ||
      includesStr l "spotless".data then { th with cleanliness := bump th.cleanliness } else th
  let th := if includesStr l "location".data || includesStr l "area".data ||
      includesStr l "convenient".data then { th with location := bump th.location } else th
  let th := if includesStr l "host".data || includesStr l "communication".data ||
      includesStr l "responsive".data then { th with host := bump th.host } else th
  let th := if includesStr l "value".data || includesStr l "price".data ||
      includesStr l "worth".data then { th with value := bump th.value } else th
  let th := if includesStr l "comfortable".data || includesStr l "cozy".data ||
      includesStr l "bed".data then { th with comfort := bump th.comfort } else th
  let th := if includesStr l "amenities".data || includesStr l "kitchen".data ||
      includesStr l "facilities".data then { th with amenities := bump th.amenities } else th
  let noisePos := if includesStr l "quiet".data || includesStr l "peaceful".data then 1 else 0
  let noiseNeg := if includesStr l "noisy".data || includesStr l "loud".data ||
      includesStr l "noise".data then 1 else 0
  let th := if includesStr l "noise".data || includesStr l "noisy".data ||
      includesStr l "quiet".data || includesStr l "loud".data ||
      includesStr l "peaceful".data then
      { th with noiseLevels :=
        ⟨th.noiseLevels.positive + noisePos, th.noiseLevels.negative + noiseNeg⟩ }
    else th
  th

def computeThemes (texts : List (List Char)) : Themes :=
  texts.foldl themeStep {}

def actualProsOf (th : Themes) : List (List Char) :=
  (if 2 < th.cleanliness.positive then ["Excellent cleanliness standards maintained".data] else []) ++
  (if 2 < th.location.positive then ["Convenient location with good accessibility".data] else []) ++
  (if 2 < th.host.positive then ["Responsive and helpful host communication".data] else []) ++
  (if 2 < th.value.positive then ["Good value for money".data] else []) ++
  (if 2 < th.comfort.positive then ["Comfortable and welcoming atmosphere".data] else []) ++
  (if 2 < th.amenities.positive then ["Well-equipped with necessary amenities".data] else []) ++
  (if 2 < th.noiseLevels.positive then ["Quiet and peaceful environment".data] else [])

def actualConsOf (th : Themes) : List (List Char) :=
  (if 1 < th.cleanliness.negative then ["Some guests noted cleanliness concerns".data] else []) ++
  (if 1 < th.location.negative then ["Location may not suit all preferences".data] else []) ++
  (if 1 < th.host.negative then ["Host responsiveness could be improved".data] else []) ++
  (if 1 < th.value.negative then ["Value perception varies among guests".data] else []) ++
  (if 1 < th.comfort.negative then ["Comfort levels received mixed feedback".data] else []) ++
  (if 1 < th.amenities.negative then ["Amenities may need updating".data] else []) ++
  (if 1 < th.noiseLevels.negative then ["Noise levels mentioned as a concern".data] else [])

structure GuestInsights where
  recommended_for : List (List Char)
  not_recommended_for : List (List Char)
  best_features : List (List Char)
  areas_for_improvement : List (List Char)
  deriving Repr, DecidableEq

/-- The semantic-indicator regexes of the guest-insight detection, each an
alternation of literal words (the `/i` flag is absorbed by matching on the
already-lowercased joined text). -/
def guestInsightsOf (texts : List (List Char)) (th : Themes) : GuestInsights :=
  let allText := toLowerStr (joinWithSep [' '] texts)
  { recommended_for :=
      (if containsAnyStr allText ["family".data, "families".data, "kid".data, "child".data,
          "toddler".data, "baby".data, "daughter".data, "son".data] then
        ["Families with children".data] else []) ++
      (if containsAnyStr allText ["couple".data, "romantic".data, "anniversary".data,
          "honeymoon".data] then ["Couples".data] else []) ++
      (if containsAnyStr allText ["business".data, "work".data, "conference".data,
          "meeting".data] then ["Business travelers".data] else []) ++
      (if containsAnyStr allText ["solo".data, "alone".data, "myself".data,
          "independent".data] then ["Solo travelers".data] else []) ++
      (if containsAnyStr allText ["group".data, "friends".data, "reunion".data,
          "party".data] then ["Groups of friends".data] else [])
    not_recommended_for :=
      (if containsAnyStr allText ["noise".data, "noisy".data, "loud".data, "hear".data,
          "sound".data] then ["Light sleepers".data] else []) ++
      (if containsAnyStr allText ["stairs".data, "climb".data, "steep".data, "uphill".data,
          "no elevator".data, "walk up".data] then ["Guests with mobility issues".data] else []) ++
      (if containsAnyStr allText ["small".data, "tiny".data, "cramped".data, "tight".data] &&
          containsAnyStr allText ["space".data, "room".data] then
        ["Large groups".data] else [])
    best_features :=
      (if 2 < th.cleanliness.positive then ["Cleanliness".data] else []) ++
      (if 2 < th.location.positive then ["Location".data] else []) ++
      (if 2 < th.host.positive then ["Host Communication".data] else []) ++
      (if 2 < th.value.positive then ["Value for Money".data] else []) ++
      (if 2 < th.comfort.positive then ["Comfort".data] else []) ++
      (if 2 < th.amenities.positive then ["Amenities".data] else []) ++
      (if 2 < th.noiseLevels.positive then ["Quiet Environment".data] else [])
    areas_for_improvement :=
      (if 1 < th.cleanliness.negative then ["Cleanliness".data] else []) ++
      (if 1 < th.location.negative then ["Location".data] else []) ++
      (if 1 < th.host.negative then ["Host Communication".data] else []) ++
      (if 1 < th.value.negative then ["Value for Money".data] else []) ++
      (if 1 < th.comfort.negative then ["Comfort".data] else []) ++
      (if 1 < th.amenities.negative then ["Amenities".data] else []) ++
      (if 1 < th.noiseLevels.negative then ["Noise Levels".data] else []) }

structure SentimentAnalysis where
  positive_percentage : Nat
  neutral_percentage : Int
  negative_percentage : Nat
  overall_sentiment : List Char
  deriving Repr, DecidableEq

structure ProsAndCons where
  pros : List (List Char)
  cons : List (List Char)
  deriving Repr, DecidableEq

/-- The analysis result object.  `keyword_analysis_error` is only set on the
Prompt-API paths; the plain fallback result leaves it absent (`none`). -/
structure Analysis where
  success : Bool
  analysis_type : List Char
  trust_score : Nat
  sentiment_analysis : SentimentAnalysis
  keyword_analysis : List KeywordItem
  pros_and_cons : ProsAndCons
  guest_insights : GuestInsights
  summary : List Char
  reviews_analyzed : Nat
  message : List Char
  keyword_analysis_error : Option (List Char) := none
  deriving Repr, DecidableEq

/-- `Math.round((p / total) * 100)` for non-negative counts:
`floor(100 * p / total + 1/2)`. -/
def jsRound100 (p total : Nat) : Nat :=
  (200 * p + total) / (2 * total)

/-- `r.text || r.comments ||` empty string. -/
def rawTextOf (r : Review) : List Char :=
  if r.text ≠ [] then r.text else r.comments

/-- The summary template string of the fallback analysis. -/
def fallbackSummary (numReviews positivePercentage : Nat)
    (actualPros actualCons : List (List Char)) : List Char :=
  "Based on analyzing ".data ++ natToStr numReviews ++
    " guest reviews, this property demonstrates ".data ++ natToStr positivePercentage ++
    "% positive sentiment overall. ".data ++
  (if actualPros.length ≠ 0 then
    "Key strengths include: ".data ++ joinWithSep ", ".data (actualPros.take 3) ++ ". ".data
   else []) ++
  (if actualCons.length ≠ 0 then
    "Areas noted for potential improvement: ".data ++
      joinWithSep ", ".data (actualCons.take 3) ++ ".".data
   else []) ++
  " The property appears to ".data ++
  (if 75 ≤ positivePercentage then "consistently meet guest expectations".data
   else if 50 ≤ positivePercentage then
    "generally satisfy most guests with some areas for enhancement".data
   else "have mixed reviews that potential guests should carefully consider".data) ++
  ".".data

/-- `fallbackReviewAnalysis(reviews)`: the local keyword-based heuristic
analysis used when the AI APIs are unavailable or fail. -/
def fallbackReviewAnalysis (reviews : List Review) : Analysis :=
  let reviewTexts := (reviews.map rawTextOf).filter fun t => 10 < t.length
  let positiveCount := countWordHits positiveWords reviewTexts
  let negativeCount := countWordHits negativeWords reviewTexts
  let total := if positiveCount + negativeCount = 0 then 1 else positiveCount + negativeCount
  let positivePercentage := jsRound100 positiveCount total
  let negativePercentage := jsRound100 negativeCount total
  let neutralPercentage : Int := 100 - positivePercentage - negativePercentage
  let themes := computeThemes reviewTexts
  let actualPros := actualProsOf themes
  let actualCons := actualConsOf themes
  { success := true
    analysis_type := "basic_analysis".data
    trust_score := min 90 (max 50 (positivePercentage + 10))
    sentiment_analysis :=
      { positive_percentage := positivePercentage
        neutral_percentage := neutralPercentage
        negative_percentage := negativePercentage
        overall_sentiment :=
          if negativePercentage < positivePercentage then "positive".data else "negative".data }
    keyword_analysis := []
    pros_and_cons := { pros := actualPros.take 7, cons := actualCons.take 7 }
    guest_insights := guestInsightsOf reviewTexts themes
    summary := fallbackSummary reviews.length positivePercentage actualPros actualCons
    reviews_analyzed := reviews.length
    message := "Basic analysis (Browser AI not available - showing real data only)".data }

/-! ## `analyzeReviews` (browser-ai-integration.js lines 1025-1256)

The external AI sessions are modelled as oracles: `summarizerAvailable`
stands for `initSummarizerSession()` succeeding (it throws
`SUMMARIZER_UNAVAILABLE` otherwise), `summarize` for the per-chunk
`summarizerSession.summarize` calls (`none` = the call throws),
`promptExtract` for the whole Prompt-API fallback extraction (`none` = it
throws), and `rest` for the remainder of the `try` block after level-1
summarization (recursive summarization, structured extraction and result
assembly), which the all-batches-fail scenario never reaches.  The
`isAnalyzing` re-entry flag is `false` on a fresh instance and is not
modelled.  A thrown `Error` is `Except.error` of its message. -/

/-- `truncateReview` (lines 267-275), `MAX_CHARS_PER_REVIEW = 500`. -/
def truncateReview (reviewText : List Char) : List Char :=
  if reviewText.length ≤ 500 then reviewText
  else reviewText.take 500 ++ "...".data

/-- The structured data the Prompt-API extraction returns (each top-level
key may be missing). -/
structure StructuredData where
  keyword_analysis : Option (List KeywordItem) := none
  pros_and_cons : Option ProsAndCons := none
  guest_insights : Option GuestInsights := none
  errorReason : Option (List Char) := none
  deriving Repr, DecidableEq

def msgPromptOnly : List Char :=
  "✅ Analysis completed using Prompt API (Summarizer API unavailable)".data

def msgBothFailed : List Char :=
  "⚠️ Using basic analysis (both AI APIs unavailable)".data

def msgUnexpectedError : List Char :=
  "⚠️ Using basic analysis (error occurred)".data

/-- Combining the Prompt-API structured data with the fallback analysis
(the `SUMMARIZER_UNAVAILABLE` path, lines 1225-1235). -/
def combineWithStructured (fb : Analysis) (sd : StructuredData) : Analysis :=
  { fb with
    keyword_analysis := sd.keyword_analysis.getD fb.keyword_analysis
    pros_and_cons := sd.pros_and_cons.getD fb.pros_and_cons
    guest_insights := sd.guest_insights.getD fb.guest_insights
    message := msgPromptOnly
    keyword_analysis_error := sd.errorReason }

/-- `analyzeReviews(reviews)` with the AI oracles made explicit. -/
def analyzeReviews (summarizerAvailable : Bool)
    (summarize : List Char → Option (List Char))
    (promptExtract : Option StructuredData)
    (rest : List (List Char) → Except (List Char) Analysis)
    (reviews : List Review) : Except (List Char) Analysis :=
  if reviews.length = 0 then Except.error "No reviews to analyze".data
  else
    let tryResult : Except (List Char) Analysis :=
      if summarizerAvailable then
        let reviewsToAnalyze := reviews.take 100
        let truncatedTexts :=
          (reviewsToAnalyze.map fun r => truncateReview (trimStr (rawTextOf r))).filter
            fun t => 10 < t.length
        let chunks := createOptimizedChunks truncatedTexts 1
        let chunkSummaries := chunks.filterMap fun c => summarize (joinChunk c)
        if chunkSummaries.length = 0 then Except.error "All chunk summarizations failed".data
        else rest chunkSummaries
      else Except.error "SUMMARIZER_UNAVAILABLE".data
    match tryResult with
    | Except.ok a => Except.ok a
    | Except.error e =>
      if e = "SUMMARIZER_UNAVAILABLE".data then
        match promptExtract with
        | some sd =>
          Except.ok (combineWithStructured (fallbackReviewAnalysis (reviews.take 100)) sd)
        | none =>
          Except.ok { fallbackReviewAnalysis (reviews.take 100) with message := msgBothFailed }
      else
        Except.ok { fallbackReviewAnalysis (reviews.take 100) with message := msgUnexpectedError }

/-! ## `askQuestion` (browser-ai-integration.js lines 1700-1805) -/

/-- One entry of the in-memory review cache (`buildReviewCache`,
lines 298-330). -/
structure CachedReview where
  id : Nat
  text : List Char
  original_length : Nat
  was_truncated : Bool
  deriving Repr, DecidableEq

/-- `buildReviewCache(reviews)`: first 100 reviews, trimmed and truncated to
500 chars, entries with at most 10 characters removed. -/
def buildReviewCache (reviews : List Review) : List CachedReview :=
  (((reviews.take 100).map fun r => trimStr (rawTextOf r)).enum.map fun p =>
    ⟨p.1, truncateReview p.2, p.2.length, decide (500 < p.2.length)⟩).filter
    fun c => 10 < c.text.length

/-- The sequential-search batches: the loop
`for (startIndex = 0; startIndex < total; startIndex += 10)` with
`slice(startIndex, startIndex + 10)` per iteration. -/
def splitBatches (l : List CachedReview) : List (List CachedReview) :=
  (List.range ((l.length + 9) / 10)).map fun b => (l.drop (10 * b)).take 10

def notFoundMarker : List Char := "NOT_FOUND_IN_THIS_BATCH".data

def noReviewsMsg : List Char := "No reviews available to answer your question.".data

def notMentionedMsg : List Char :=
  ("Sorry, this information is not mentioned in the reviews. " ++
   "The guests did not discuss this topic in their feedback.").data

/-- The per-batch prompt string (question, batch texts joined with the
separator, and the anti-hallucination instructions). -/
def buildPrompt (question : List Char) (batchTexts : List (List Char)) : List Char :=
  "QUESTION: \"".data ++ question ++ "\"\n\nREVIEWS FROM GUESTS:\n".data ++
  joinChunk batchTexts ++
  ("\n\nCRITICAL INSTRUCTIONS:\n" ++
   "1. Read the question CAREFULLY and understand EXACTLY what is being asked\n" ++
   "2. If asking about \"places to avoid AROUND\" → Answer about NEIGHBORHOOD safety/areas, NOT property problems\n" ++
   "3. If asking about \"food nearby\" → Mention SPECIFIC food types (Italian, Mexican, BBQ, etc.), not just \"restaurants\"\n" ++
   "4. If asking about \"things to do AROUND\" → Focus on NEIGHBORHOOD attractions/activities\n" ++
   "5. ONLY use information actually in these reviews\n" ++
   "6. If answer NOT found, say: \"NOT_FOUND_IN_THIS_BATCH\"\n" ++
   "7. NO review number citations\n" ++
   "8. Answer the EXACT question asked, not something similar\n\n" ++
   "Your answer:").data

/-- The sequential batch search: stop (returning nothing) when the prompt
would not fit the remaining token budget of the session; stop returning the
response as soon as one batch response lacks the not-found marker. -/
def searchBatches (respond : Nat → List Char) (availTokens : Nat → Nat)
    (question : List Char) : Nat → List (List CachedReview) → Option (List Char)
  | _, [] => none
  | i, batch :: rest =>
    if availTokens i < estimateTokens (buildPrompt question (batch.map fun c => c.text)) then
      none
    else
      let response := respond i
      if includesStr response notFoundMarker then
        searchBatches respond availTokens question (i + 1) rest
      else some response

/-- `askQuestion(reviews, question)` with the Prompt-API session modelled by
the `respond` / `availTokens` oracles. -/
def askQuestion (respond : Nat → List Char) (availTokens : Nat → Nat)
    (reviews : List Review) (question : List Char) : List Char :=
  if reviews.length = 0 then noReviewsMsg
  else
    let cache := buildReviewCache reviews
    let batches := splitBatches cache
    match searchBatches respond availTokens question 0 batches with
    | some answer => if answer ≠ [] then answer else notMentionedMsg
    | none => notMentionedMsg

/-! ## Collector (`collectReviewsWithScrolling`, src/unnamed/part_000 lines 253-655) -/

/-- The duplicate test of the collector:
`existing.name === review.name && existing.text === review.text`. -/
def isDuplicateOf (existing r : Review) : Bool :=
  existing.name = r.name && existing.text = r.text

/-- The main-loop merge (src/unnamed/part_000 lines 270-277): append each
pass record that is not a duplicate and has truthy name and text. -/
def mergeInto (acc curr : List Review) : List Review :=
  curr.foldl
    (fun acc r =>
      if ¬(acc.any (isDuplicateOf · r)) ∧ r.name ≠ [] ∧ r.text ≠ [] then acc ++ [r] else acc)
    acc

/-- The final-push merge (src/unnamed/part_000 lines 540-547): same test
plus the `allReviews.length < 95` cap. -/
def mergeIntoFinal (acc curr : List Review) : List Review :=
  curr.foldl
    (fun acc r =>
      if ¬(acc.any (isDuplicateOf · r)) ∧ r.name ≠ [] ∧ r.text ≠ [] ∧ acc.length < 95 then
        acc ++ [r]
      else acc)
    acc

/-- The working state of the collector. -/
structure CState where
  allReviews : List Review
  attempts : Nat
  consecutiveNoNewReviews : Nat
  deriving Repr, DecidableEq

/-- One iteration of the main `while` loop, against the extraction pass the
source document yields at this time (`passes`) and whether the
end-of-reviews probe fires (`endSig`).  Returns the new state and whether
the body hit a `break`. -/
def collectStep (passes : Nat → List Review) (endSig : Nat → Bool) (s : CState) :
    CState × Bool :=
  let attempts := s.attempts + 1
  let previousCount := s.allReviews.length
  let currentReviews := passes s.attempts
  let allReviews := mergeInto s.allReviews currentReviews
  if 100 ≤ allReviews.length then (⟨allReviews, attempts, s.consecutiveNoNewReviews⟩, true)
  else if allReviews.length = previousCount then
    let c := s.consecutiveNoNewReviews + 1
    if 5 ≤ c ∧ endSig s.attempts then (⟨allReviews, attempts, c⟩, true)
    else (⟨allReviews, attempts, c⟩, false)
  else (⟨allReviews, attempts, 0⟩, false)

/-- The guard of the main `while` loop. -/
def collectGuard (s : CState) : Prop :=
  s.allReviews.length < 100 ∧ s.attempts < 30 ∧ s.consecutiveNoNewReviews < 10

instance (s : CState) : Decidable (collectGuard s) := by
  unfold collectGuard
  infer_instance

/-- The main `while` loop, run with explicit fuel. -/
def collectLoop (passes : Nat → List Review) (endSig : Nat → Bool) :
    Nat → CState → CState
  | 0, s => s
  | fuel + 1, s =>
    if collectGuard s then
      match collectStep passes endSig s with
      | (s', true) => s'
      | (s', false) => collectLoop passes endSig fuel s'
    else s

/-- The bounded final-push `for` loop (src/unnamed/part_000 lines 522-561):
`finalAttempt` counts 0..7, stops early at 95 records, and at
`finalAttempt === 6` the (freshly assigned) `reviewsBeforePush` comparison
always holds, so it breaks.  Also returns the number of passes performed. -/
def finalPushAux (passes2 : Nat → List Review) (k : Nat) (acc : List Review) (cnt : Nat) :
    List Review × Nat :=
  if k < 8 ∧ acc.length < 95 then
    let acc2 := mergeIntoFinal acc (passes2 k)
    let reviewsBeforePush := acc2.length
    if 3 ≤ k ∧ k ≠ 3 ∧ k = 6 ∧ acc2.length = reviewsBeforePush then (acc2, cnt + 1)
    else finalPushAux passes2 (k + 1) acc2 (cnt + 1)
  else (acc, cnt)
termination_by 8 - k

/-- The whole collection run: main loop (started with fuel covering the
attempt budget of 30), then the final push when the count is in the
[50, 95) band, then `slice(0, 100)`.  Returns the collected list, the
attempt counter, and the number of final-push passes. -/
def collectReviewsWithScrolling (passes : Nat → List Review) (endSig : Nat → Bool)
    (passes2 : Nat → List Review) : List Review × Nat × Nat :=
  let s := collectLoop passes endSig 30 ⟨[], 0, 0⟩
  let p :=
    if 50 ≤ s.allReviews.length ∧ s.allReviews.length < 95 then
      finalPushAux passes2 0 s.allReviews 0
    else (s.allReviews, 0)
  (p.1.take 100, s.attempts, p.2)

theorem collectStep_attempts (passes : Nat → List Review) (endSig : Nat → Bool) (s : CState) :
    (collectStep passes endSig s).1.attempts = s.attempts + 1 := by
  unfold collectStep
  dsimp only
  split_ifs <;> rfl

theorem collectStep_allReviews (passes : Nat → List Review) (endSig : Nat → Bool) (s : CState) :
    (collectStep passes endSig s).1.allReviews = mergeInto s.allReviews (passes s.attempts) := by
  unfold collectStep
  dsimp only
  split_ifs <;> rfl

theorem collectLoop_succ (passes : Nat → List Review) (endSig : Nat → Bool) :
    ∀ (fuel : Nat) (s : CState), 30 ≤ s.attempts + fuel →
      collectLoop passes endSig (fuel + 1) s = collectLoop passes endSig fuel s := by
  intro fuel
  induction fuel with
  | zero =>
    intro s h
    show (if collectGuard s then _ else s) = s
    rw [if_neg fun hg => by have := hg.2.1; omega]
  | succ f ih =>
    intro s h
    show (if collectGuard s then _ else s) = (if collectGuard s then _ else s)
    by_cases hg : collectGuard s
    · rw [if_pos hg, if_pos hg]
      have hatt := collectStep_attempts passes endSig s
      rcases hstep : collectStep passes endSig s with ⟨s', b⟩
      rw [hstep] at hatt
      cases b
      · exact ih s' (by dsimp at hatt; omega)
      · rfl
    · rw [if_neg hg, if_neg hg]

theorem collectLoop_stable (passes : Nat → List Review) (endSig : Nat → Bool)
    (fuel : Nat) (hfuel : 30 ≤ fuel) :
    collectLoop passes endSig fuel ⟨[], 0, 0⟩ = collectLoop passes endSig 30 ⟨[], 0, 0⟩ := by
  induction fuel, hfuel using Nat.le_induction with
  | base => rfl
  | succ n hn ih =>
    rw [collectLoop_succ passes endSig n ⟨[], 0, 0⟩ (by dsimp; omega)]
    exact ih

theorem collectLoop_attempts_le (passes : Nat → List Review) (endSig : Nat → Bool) :
    ∀ (fuel : Nat) (s : CState), s.attempts ≤ 30 →
      (collectLoop passes endSig fuel s).attempts ≤ 30 := by
  intro fuel
  induction fuel with
  | zero => intro s h; exact h
  | succ f ih =>
    intro s h
    show (if collectGuard s then _ else s).attempts ≤ 30
    by_cases hg : collectGuard s
    · rw [if_pos hg]
      have hatt := collectStep_attempts passes endSig s
      have h30 : s.attempts < 30 := hg.2.1
      rcases hstep : collectStep passes endSig s with ⟨s', b⟩
      rw [hstep] at hatt
      dsimp at hatt
      cases b
      · exact ih s' (by omega)
      · dsimp only
        omega
    · rw [if_neg hg]
      exact h

theorem finalPushAux_count (passes2 : Nat → List Review) :
    ∀ (d k : Nat) (acc : List Review) (cnt : Nat), 8 - k ≤ d →
      (finalPushAux passes2 k acc cnt).2 ≤ cnt + (8 - k) := by
  intro d
  induction d with
  | zero =>
    intro k acc cnt hd
    rw [finalPushAux]
    rw [if_neg fun hg => by have := hg.1; omega]
    omega
  | succ d ih =>
    intro k acc cnt hd
    rw [finalPushAux]
    by_cases hg : k < 8 ∧ acc.length < 95
    · rw [if_pos hg]
      dsimp only
      by_cases hbr : 3 ≤ k ∧ k ≠ 3 ∧ k = 6 ∧
          (mergeIntoFinal acc (passes2 k)).length = (mergeIntoFinal acc (passes2 k)).length
      · rw [if_pos hbr]
        have := hg.1
        omega
      · rw [if_neg hbr]
        have h1 := ih (k + 1) (mergeIntoFinal acc (passes2 k)) (cnt + 1) (by omega)
        have := hg.1
        omega
    · rw [if_neg hg]
      omega

/-- **C2.** The collector terminates for every behavior of the source
document: the attempt counter increases by exactly 1 per iteration, the main
loop needs at most 30 iterations (fuel 30 computes its fixed point, and the
attempt counter never exceeds 30), and the final push performs at most 8
extra passes. -/
theorem collector_terminates (passes : Nat → List Review) (endSig : Nat → Bool)
    (passes2 : Nat → List Review) (fuel : Nat) (hfuel : 30 ≤ fuel) :
    collectLoop passes endSig fuel ⟨[], 0, 0⟩ = collectLoop passes endSig 30 ⟨[], 0, 0⟩ ∧
      (collectLoop passes endSig fuel ⟨[], 0, 0⟩).attempts ≤ 30 ∧
      (∀ s : CState, (collectStep passes endSig s).1.attempts = s.attempts + 1) ∧
      (collectReviewsWithScrolling passes endSig passes2).2.2 ≤ 8 := by
  refine ⟨collectLoop_stable passes endSig fuel hfuel, ?_, collectStep_attempts passes endSig, ?_⟩
  · exact collectLoop_attempts_le passes endSig fuel ⟨[], 0, 0⟩ (by dsimp; omega)
  · unfold collectReviewsWithScrolling
    dsimp only
    set s := collectLoop passes endSig 30 ⟨[], 0, 0⟩
    by_cases hband : 50 ≤ s.allReviews.length ∧ s.allReviews.length < 95
    · rw [if_pos hband]
      have := finalPushAux_count passes2 8 0 s.allReviews 0 (by omega)
      omega
    · rw [if_neg hband]
      omega

def emptyPasses : Nat → List Review := fun _ => []

def noEndSig : Nat → Bool := fun _ => false

theorem collector_terminates_witness :
    collectLoop emptyPasses noEndSig 31 ⟨[], 0, 0⟩ = collectLoop emptyPasses noEndSig 30 ⟨[], 0, 0⟩ ∧
      (collectLoop emptyPasses noEndSig 31 ⟨[], 0, 0⟩).attempts ≤ 30 ∧
      (collectStep emptyPasses noEndSig ⟨[], 0, 0⟩).1.attempts = 0 + 1 ∧
      (collectReviewsWithScrolling emptyPasses noEndSig emptyPasses).2.2 ≤ 8 :=
  ⟨(collector_terminates emptyPasses noEndSig emptyPasses 31 (by omega)).1,
   (collector_terminates emptyPasses noEndSig emptyPasses 31 (by omega)).2.1,
   (collector_terminates emptyPasses noEndSig emptyPasses 31 (by omega)).2.2.1 ⟨[], 0, 0⟩,
   (collector_terminates emptyPasses noEndSig emptyPasses 31 (by omega)).2.2.2⟩

/-- No two records of the list agree on both author and body text. -/
def DedupRecords (l : List Review) : Prop :=
  l.Pairwise fun a b => ¬(a.name = b.name ∧ a.text = b.text)

theorem not_any_dup {acc : List Review} {r : Review}
    (h : ¬(acc.any (isDuplicateOf · r) = true)) :
    ∀ a ∈ acc, ¬(a.name = r.name ∧ a.text = r.text) := by
  intro a ha hc
  apply h
  rw [List.any_eq_true]
  exact ⟨a, ha, by simp [isDuplicateOf, hc.1, hc.2]⟩

theorem dedup_append {acc : List Review} {r : Review} (hacc : DedupRecords acc)
    (hnew : ∀ a ∈ acc, ¬(a.name = r.name ∧ a.text = r.text)) :
    DedupRecords (acc ++ [r]) := by
  unfold DedupRecords at *
  rw [List.pairwise_append]
  refine ⟨hacc, by simp, ?_⟩
  intro a ha b hb
  rw [List.mem_singleton.mp hb]
  exact hnew a ha

theorem mergeInto_pfx (curr : List Review) :
    ∀ acc : List Review, acc <+: mergeInto acc curr := by
  induction curr with
  | nil => intro acc; exact ⟨[], List.append_nil _⟩
  | cons r t ih =>
    intro acc
    show acc <+: mergeInto (if _ then acc ++ [r] else acc) t
    by_cases hc : ¬(acc.any (isDuplicateOf · r) = true) ∧ r.name ≠ [] ∧ r.text ≠ []
    · rw [if_pos hc]
      exact (show acc <+: acc ++ [r] from ⟨[r], rfl⟩).trans (ih (acc ++ [r]))
    · rw [if_neg hc]
      exact ih acc

theorem mergeInto_dedup (curr : List Review) :
    ∀ acc : List Review, DedupRecords acc → DedupRecords (mergeInto acc curr) := by
  induction curr with
  | nil => intro acc h; exact h
  | cons r t ih =>
    intro acc h
    show DedupRecords (mergeInto (if _ then acc ++ [r] else acc) t)
    by_cases hc : ¬(acc.any (isDuplicateOf · r) = true) ∧ r.name ≠ [] ∧ r.text ≠ []
    · rw [if_pos hc]
      exact ih (acc ++ [r]) (dedup_append h (not_any_dup hc.1))
    · rw [if_neg hc]
      exact ih acc h

theorem mergeIntoFinal_pfx (curr : List Review) :
    ∀ acc : List Review, acc <+: mergeIntoFinal acc curr := by
  induction curr with
  | nil => intro acc; exact ⟨[], List.append_nil _⟩
  | cons r t ih =>
    intro acc
    show acc <+: mergeIntoFinal (if _ then acc ++ [r] else acc) t
    by_cases hc : ¬(acc.any (isDuplicateOf · r) = true) ∧ r.name ≠ [] ∧ r.text ≠ [] ∧
        acc.length < 95
    · rw [if_pos hc]
      exact (show acc <+: acc ++ [r] from ⟨[r], rfl⟩).trans (ih (acc ++ [r]))
    · rw [if_neg hc]
      exact ih acc

theorem mergeIntoFinal_dedup (curr : List Review) :
    ∀ acc : List Review, DedupRecords acc → DedupRecords (mergeIntoFinal acc curr) := by
  induction curr with
  | nil => intro acc h; exact h
  | cons r t ih =>
    intro acc h
    show DedupRecords (mergeIntoFinal (if _ then acc ++ [r] else acc) t)
    by_cases hc : ¬(acc.any (isDuplicateOf · r) = true) ∧ r.name ≠ [] ∧ r.text ≠ [] ∧
        acc.length < 95
    · rw [if_pos hc]
      exact ih (acc ++ [r]) (dedup_append h (not_any_dup hc.1))
    · rw [if_neg hc]
      exact ih acc h

theorem collectLoop_dedup (passes : Nat → List Review) (endSig : Nat → Bool) :
    ∀ (fuel : Nat) (s : CState), DedupRecords s.allReviews →
      DedupRecords (collectLoop passes endSig fuel s).allReviews := by
  intro fuel
  induction fuel with
  | zero => intro s h; exact h
  | succ f ih =>
    intro s h
    show DedupRecords (if collectGuard s then _ else s).allReviews
    by_cases hg : collectGuard s
    · rw [if_pos hg]
      have hall := collectStep_allReviews passes endSig s
      rcases hstep : collectStep passes endSig s with ⟨s', b⟩
      rw [hstep] at hall
      dsimp at hall
      have hs' : DedupRecords s'.allReviews := by
        rw [hall]
        exact mergeInto_dedup _ _ h
      cases b
      · exact ih s' hs'
      · exact hs'
    · rw [if_neg hg]
      exact h

theorem collectLoop_pfx (passes : Nat → List Review) (endSig : Nat → Bool) :
    ∀ (fuel : Nat) (s : CState),
      (collectLoop passes endSig fuel s).allReviews <+:
        (collectLoop passes endSig (fuel + 1) s).allReviews := by
  intro fuel
  induction fuel with
  | zero =>
    intro s
    show s.allReviews <+: (if collectGuard s then _ else s).allReviews
    by_cases hg : collectGuard s
    · rw [if_pos hg]
      have hall := collectStep_allReviews passes endSig s
      rcases hstep : collectStep passes endSig s with ⟨s', b⟩
      rw [hstep] at hall
      dsimp at hall
      have hp : s.allReviews <+: s'.allReviews := by
        rw [hall]
        exact mergeInto_pfx _ _
      cases b
      · exact hp
      · exact hp
    · rw [if_neg hg]
  | succ f ih =>
    intro s
    show (if collectGuard s then _ else s).allReviews <+:
      (if collectGuard s then _ else s).allReviews
    by_cases hg : collectGuard s
    · rw [if_pos hg, if_pos hg]
      rcases hstep : collectStep passes endSig s with ⟨s', b⟩
      cases b
      · dsimp only
        exact ih s'
      · dsimp only
        exact ⟨[], List.append_nil _⟩
    · rw [if_neg hg, if_neg hg]

theorem finalPushAux_dedup (passes2 : Nat → List Review) :
    ∀ (d k : Nat) (acc : List Review) (cnt : Nat), 8 - k ≤ d → DedupRecords acc →
      DedupRecords (finalPushAux passes2 k acc cnt).1 := by
  intro d
  induction d with
  | zero =>
    intro k acc cnt hd h
    rw [finalPushAux]
    rw [if_neg fun hg => by have := hg.1; omega]
    exact h
  | succ d ih =>
    intro k acc cnt hd h
    rw [finalPushAux]
    by_cases hg : k < 8 ∧ acc.length < 95
    · rw [if_pos hg]
      dsimp only
      have h2 : DedupRecords (mergeIntoFinal acc (passes2 k)) := mergeIntoFinal_dedup _ _ h
      by_cases hbr : 3 ≤ k ∧ k ≠ 3 ∧ k = 6 ∧
          (mergeIntoFinal acc (passes2 k)).length = (mergeIntoFinal acc (passes2 k)).length
      · rw [if_pos hbr]
        exact h2
      · rw [if_neg hbr]
        exact ih (k + 1) _ (cnt + 1) (by have := hg.1; omega) h2
    · rw [if_neg hg]
      exact h

/-- **C5.** Dedup and append-only invariants of one collection run: both the
main-loop merge and the final-push merge preserve "no two records share
(author, bodyText)" and only append (the accumulated list is a prefix of its
successor, so its size is non-decreasing); every state the main loop reaches
from the empty start is deduplicated, and so is the final collected list. -/
theorem collector_dedup (passes : Nat → List Review) (endSig : Nat → Bool)
    (passes2 : Nat → List Review) (fuel : Nat) (acc curr : List Review)
    (hacc : DedupRecords acc) :
    DedupRecords (mergeInto acc curr) ∧ acc <+: mergeInto acc curr ∧
      DedupRecords (mergeIntoFinal acc curr) ∧ acc <+: mergeIntoFinal acc curr ∧
      DedupRecords (collectLoop passes endSig fuel ⟨[], 0, 0⟩).allReviews ∧
      (collectLoop passes endSig fuel ⟨[], 0, 0⟩).allReviews <+:
        (collectLoop passes endSig (fuel + 1) ⟨[], 0, 0⟩).allReviews ∧
      (collectLoop passes endSig fuel ⟨[], 0, 0⟩).allReviews.length ≤
        (collectLoop passes endSig (fuel + 1) ⟨[], 0, 0⟩).allReviews.length ∧
      DedupRecords (collectReviewsWithScrolling passes endSig passes2).1 := by
  have hnil : DedupRecords (⟨[], 0, 0⟩ : CState).allReviews := List.Pairwise.nil
  refine ⟨mergeInto_dedup curr acc hacc, mergeInto_pfx curr acc,
    mergeIntoFinal_dedup curr acc hacc, mergeIntoFinal_pfx curr acc,
    collectLoop_dedup passes endSig fuel _ hnil,
    collectLoop_pfx passes endSig fuel _,
    (collectLoop_pfx passes endSig fuel _).length_le, ?_⟩
  unfold collectReviewsWithScrolling
  dsimp only
  set s := collectLoop passes endSig 30 ⟨[], 0, 0⟩ with hs
  have hsd : DedupRecords s.allReviews := collectLoop_dedup passes endSig 30 _ hnil
  by_cases hband : 50 ≤ s.allReviews.length ∧ s.allReviews.length < 95
  · rw [if_pos hband]
    have hfp : DedupRecords (finalPushAux passes2 0 s.allReviews 0).1 :=
      finalPushAux_dedup passes2 8 0 s.allReviews 0 (by omega) hsd
    exact hfp.sublist (List.take_sublist _ _)
  · rw [if_neg hband]
    exact hsd.sublist (List.take_sublist _ _)

/-- Concrete duplicate-bearing pass for the C5 witness. -/
def dupReview : Review := { name := "Ana".data, text := "Great stay, very clean".data }

theorem collector_dedup_witness :
    DedupRecords (mergeInto [] [dupReview, dupReview]) ∧
      [] <+: mergeInto [] [dupReview, dupReview] ∧
      DedupRecords (mergeIntoFinal [] [dupReview, dupReview]) ∧
      [] <+: mergeIntoFinal [] [dupReview, dupReview] ∧
      DedupRecords (collectLoop emptyPasses noEndSig 3 ⟨[], 0, 0⟩).allReviews ∧
      (collectLoop emptyPasses noEndSig 3 ⟨[], 0, 0⟩).allReviews <+:
        (collectLoop emptyPasses noEndSig (3 + 1) ⟨[], 0, 0⟩).allReviews ∧
      (collectLoop emptyPasses noEndSig 3 ⟨[], 0, 0⟩).allReviews.length ≤
        (collectLoop emptyPasses noEndSig (3 + 1) ⟨[], 0, 0⟩).allReviews.length ∧
      DedupRecords (collectReviewsWithScrolling emptyPasses noEndSig emptyPasses).1 :=
  collector_dedup emptyPasses noEndSig emptyPasses 3 [] [dupReview, dupReview]
    List.Pairwise.nil

/-! ## C1, C6, C9: analysis and question-answering behavior -/

theorem fallback_trust_bounds (l : List Review) :
    50 ≤ (fallbackReviewAnalysis l).trust_score ∧
      (fallbackReviewAnalysis l).trust_score ≤ 90 := by
  unfold fallbackReviewAnalysis
  dsimp only
  omega

/-- **C1 (amended).** When the external AI fails for every batch — every
summarization call throws (and, when the Summarizer API is unavailable, the
Prompt-API extraction throws too) — `analyzeReviews` never throws to its
caller: for every non-empty review list it returns the local keyword-based
fallback analysis (with the corresponding message), whose top-level keys
are all populated: trust score within [50, 90], sentiment percentages,
pros/cons, guest insights, summary, reviews-analyzed count — but whose
per-aspect keyword-analysis list is empty, not nine zero-valued aspects. -/
theorem analyzeReviews_allfail (avail : Bool) (summarize : List Char → Option (List Char))
    (rest : List (List Char) → Except (List Char) Analysis) (reviews : List Review)
    (hne : reviews ≠ []) (hfail : ∀ t, summarize t = none) :
    analyzeReviews avail summarize none rest reviews =
      Except.ok { fallbackReviewAnalysis (reviews.take 100) with
        message := if avail then msgUnexpectedError else msgBothFailed } ∧
      50 ≤ (fallbackReviewAnalysis (reviews.take 100)).trust_score ∧
      (fallbackReviewAnalysis (reviews.take 100)).trust_score ≤ 90 ∧
      (fallbackReviewAnalysis (reviews.take 100)).reviews_analyzed =
        (reviews.take 100).length ∧
      (fallbackReviewAnalysis (reviews.take 100)).keyword_analysis = [] ∧
      (fallbackReviewAnalysis (reviews.take 100)).success = true := by
  refine ⟨?_, (fallback_trust_bounds _).1, (fallback_trust_bounds _).2, rfl, rfl, rfl⟩
  have h0 : ¬(reviews.length = 0) := fun h => hne (List.length_eq_zero.mp h)
  unfold analyzeReviews
  rw [if_neg h0]
  cases avail with
  | false => rfl
  | true =>
    dsimp only
    have hnil : ((createOptimizedChunks
        (((reviews.take 100).map fun r => truncateReview (trimStr (rawTextOf r))).filter
          fun t => 10 < t.length) 1).filterMap fun c => summarize (joinChunk c)) = [] :=
      List.filterMap_eq_nil_iff.mpr fun c _ => hfail _
    rw [if_pos rfl, hnil]
    rfl

def failSummarize : List Char → Option (List Char) := fun _ => none

def restUnreachable : List (List Char) → Except (List Char) Analysis :=
  fun _ => Except.error "unreachable".data

def sampleReview : Review :=
  { name := "Ana".data, text := "The place was wonderful and very clean".data }

theorem analyzeReviews_allfail_witness :
    analyzeReviews true failSummarize none restUnreachable [sampleReview] =
      Except.ok { fallbackReviewAnalysis ([sampleReview].take 100) with
        message := if true then msgUnexpectedError else msgBothFailed } ∧
      50 ≤ (fallbackReviewAnalysis ([sampleReview].take 100)).trust_score ∧
      (fallbackReviewAnalysis ([sampleReview].take 100)).trust_score ≤ 90 ∧
      (fallbackReviewAnalysis ([sampleReview].take 100)).reviews_analyzed =
        ([sampleReview].take 100).length ∧
      (fallbackReviewAnalysis ([sampleReview].take 100)).keyword_analysis = [] ∧
      (fallbackReviewAnalysis ([sampleReview].take 100)).success = true :=
  analyzeReviews_allfail true failSummarize restUnreachable [sampleReview]
    (by simp) (fun _ => rfl)

/-- **C1 (counterexample).** With the AI failing for every batch, the
keyword-analysis list of the returned result is empty — it does not contain
per-aspect tallies for the nine enumerated aspects. -/
theorem analyzeReviews_allfail_cex :
    Except.map (fun a => a.keyword_analysis)
        (analyzeReviews true failSummarize none restUnreachable [sampleReview]) =
      Except.ok [] ∧
      requiredAspects.length = 9 := by
  refine ⟨rfl, rfl⟩

/-- **C6 (amended).** On a null/empty review list, `askQuestion` returns the
explicit "No reviews available" answer string, but `analyzeReviews` throws
an Error ("No reviews to analyze") to its caller rather than returning a
result value. -/
theorem empty_input_behavior (avail : Bool) (summarize : List Char → Option (List Char))
    (promptExtract : Option StructuredData)
    (rest : List (List Char) → Except (List Char) Analysis)
    (respond : Nat → List Char) (availTokens : Nat → Nat) (question : List Char) :
    askQuestion respond availTokens [] question = noReviewsMsg ∧
      analyzeReviews avail summarize promptExtract rest [] =
        Except.error "No reviews to analyze".data :=
  ⟨rfl, rfl⟩

/-- **C6 (counterexample).** `analyzeReviews` on the empty list raises an
error instead of returning an explicit empty result value. -/
theorem analyzeReviews_empty_throws_cex :
    analyzeReviews true failSummarize none restUnreachable [] =
      Except.error "No reviews to analyze".data ∧
      (analyzeReviews true failSummarize none restUnreachable []).isOk = false :=
  ⟨rfl, rfl⟩

theorem searchBatches_none (respond : Nat → List Char) (availTokens : Nat → Nat)
    (question : List Char)
    (hall : ∀ k, includesStr (respond k) notFoundMarker = true) :
    ∀ (bs : List (List CachedReview)) (i : Nat),
      searchBatches respond availTokens question i bs = none := by
  intro bs
  induction bs with
  | nil => intro i; rfl
  | cons b rest ih =>
    intro i
    simp only [searchBatches]
    by_cases htk : availTokens i <
        estimateTokens (buildPrompt question (b.map fun c => c.text))
    · rw [if_pos htk]
    · rw [if_neg htk]
      rw [if_pos (hall i)]
      exact ih (i + 1)

theorem searchBatches_found (respond : Nat → List Char) (availTokens : Nat → Nat)
    (question : List Char) :
    ∀ (bs : List (List CachedReview)) (i j : Nat), j < bs.length →
      (∀ k b, bs[k]? = some b →
        estimateTokens (buildPrompt question (b.map fun c => c.text)) ≤ availTokens (i + k)) →
      (∀ k, k < j → includesStr (respond (i + k)) notFoundMarker = true) →
      includesStr (respond (i + j)) notFoundMarker = false →
      searchBatches respond availTokens question i bs = some (respond (i + j)) := by
  intro bs
  induction bs with
  | nil => intro i j hj; simp at hj
  | cons b rest ih =>
    intro i j hj htok hbefore hlast
    simp only [searchBatches]
    have htok0 := htok 0 b (by simp)
    rw [Nat.add_zero] at htok0
    rw [if_neg (by omega)]
    cases j with
    | zero =>
      have hmk : ¬(includesStr (respond i) notFoundMarker = true) := by
        rw [Nat.add_zero] at hlast
        rw [hlast]
        simp
      rw [if_neg hmk, Nat.add_zero]
    | succ j0 =>
      have h0 : includesStr (respond i) notFoundMarker = true := by
        have := hbefore 0 (Nat.succ_pos j0)
        rwa [Nat.add_zero] at this
      rw [if_pos h0]
      have hrec := ih (i + 1) j0 (by simp at hj; omega)
        (fun k bk hk => by
          have := htok (k + 1) bk (by rwa [List.getElem?_cons_succ])
          rwa [show i + (k + 1) = i + 1 + k by omega] at this)
        (fun k hk => by
          have := hbefore (k + 1) (by omega)
          rwa [show i + (k + 1) = i + 1 + k by omega] at this)
        (by
          have := hlast
          rwa [show i + (j0 + 1) = i + 1 + j0 by omega] at this)
      rw [hrec, show i + 1 + j0 = i + (j0 + 1) by omega]

/-- **C9 (amended).** Provided the token budget never cuts the batch search
short: when every per-batch response carries the NOT_FOUND_IN_THIS_BATCH
marker, `askQuestion` returns the explicit not-mentioned response string
after exhausting all batches; and when the first marker-free response
appears at batch j, the search stops there and that response is returned —
unless that response is the empty string (falsy), in which case the
not-mentioned string is returned instead. -/
theorem askQuestion_grounded (respond : Nat → List Char) (availTokens : Nat → Nat)
    (reviews : List Review) (question : List Char)
    (hne : reviews.length ≠ 0)
    (htok : ∀ k b, (splitBatches (buildReviewCache reviews))[k]? = some b →
      estimateTokens (buildPrompt question (b.map fun c => c.text)) ≤ availTokens k) :
    ((∀ k, includesStr (respond k) notFoundMarker = true) →
      askQuestion respond availTokens reviews question = notMentionedMsg) ∧
    (∀ j, j < (splitBatches (buildReviewCache reviews)).length →
      (∀ k, k < j → includesStr (respond k) notFoundMarker = true) →
      includesStr (respond j) notFoundMarker = false →
      askQuestion respond availTokens reviews question =
        if respond j ≠ [] then respond j else notMentionedMsg) := by
  constructor
  · intro hall
    unfold askQuestion
    rw [if_neg hne]
    dsimp only
    rw [searchBatches_none respond availTokens question hall _ 0]
  · intro j hj hbefore hlast
    unfold askQuestion
    rw [if_neg hne]
    dsimp only
    rw [searchBatches_found respond availTokens question _ 0 j hj
      (fun k b hk => by simpa using htok k b hk)
      (fun k hk => by simpa using hbefore k hk)
      (by simpa using hlast)]
    simp only [Nat.zero_add]

def qRespondFound : Nat → List Char := fun _ => "The wifi password is on the fridge".data

def qRespondMarked : Nat → List Char := fun _ => notFoundMarker

def bigTokenBudget : Nat → Nat := fun _ => 1000000

theorem askQuestion_grounded_witness :
    askQuestion qRespondMarked bigTokenBudget [sampleReview] "Is there wifi?".data =
      notMentionedMsg ∧
    askQuestion qRespondFound bigTokenBudget [sampleReview] "Is there wifi?".data =
      (if qRespondFound 0 ≠ [] then qRespondFound 0 else notMentionedMsg) :=
  ⟨(askQuestion_grounded qRespondMarked bigTokenBudget [sampleReview] "Is there wifi?".data
      (by decide)
      (fun k b hk => by
        obtain ⟨hlt, _⟩ := List.getElem?_eq_some.mp hk
        have h1 : (splitBatches (buildReviewCache [sampleReview])).length = 1 := rfl
        rw [h1] at hlt
        interval_cases k
        · cases hk
          decide)).1
    (fun _ => by unfold qRespondMarked; decide),
   (askQuestion_grounded qRespondFound bigTokenBudget [sampleReview] "Is there wifi?".data
      (by decide)
      (fun k b hk => by
        obtain ⟨hlt, _⟩ := List.getElem?_eq_some.mp hk
        have h1 : (splitBatches (buildReviewCache [sampleReview])).length = 1 := rfl
        rw [h1] at hlt
        interval_cases k
        · cases hk
          decide)).2 0 (by decide) (fun k hk => absurd hk (by omega)) (by decide)⟩

/-- **C9 (counterexample).** An empty-string batch response lacks the
marker, so the search stops — but the empty response is not returned; the
not-mentioned string is returned instead. -/
theorem askQuestion_grounded_cex :
    includesStr [] notFoundMarker = false ∧
      askQuestion (fun _ => []) bigTokenBudget [sampleReview] "Is there wifi?".data =
        notMentionedMsg ∧
      notMentionedMsg ≠ ([] : List Char) := by
  refine ⟨rfl, rfl, by decide⟩

end Travana
